import Mathlib

/-!
Verification development for the TinyTelemetry UDP pipeline.

Part 1 embeds the wire codec of src/protocol_M_M.py.  A datagram is a
list of byte values (Nat, each below 256).  A sensor value is carried as
the 32-bit big-endian IEEE-754 single-precision bit pattern (a Nat below
2 ^ 32); finiteness of the float corresponds to the exponent field of the
pattern being different from 0xFF.  Fallible Python functions (raising
ValueError or struct.error) become functions into Except String.

Part 2 embeds the per-device reordering and gap-reconciliation engine of
src/server_besheer.py as a pure state machine.  Python float arithmetic
on reading values is idealised as exact rational arithmetic.
-/

namespace Telemetry

/-! ### Constants of protocol_M_M.py -/

def VERSION : Int := 1
def MSG_INIT : Int := 0
def MSG_DATA : Int := 1
def MSG_HEARTBEAT : Int := 2
def SENSOR_TEMP : Int := 1
def SENSOR_HUM : Int := 2
def SENSOR_VOLT : Int := 3
def ALLOWED_DEVICE_IDS : List Int := [3001, 3002, 3003]
def HEADER_SIZE : Nat := 13
def READING_SIZE : Nat := 5
def PAYLOAD_LIMIT : Nat := 200
def FLAG_BATCHING : Int := 1

/-! ### Data model of the codec -/

/-- A sensor reading as the codec sees it.  The value field holds the
IEEE-754 single-precision bit pattern of the float (big-endian word). -/
structure SensorReading where
  sensor_type : Int
  value : Nat
deriving DecidableEq, Repr

/-- The TelemetryPacket class of protocol_M_M.py. -/
structure TelemetryPacket where
  version : Int
  msg_type : Int
  device_id : Int
  seq_num : Int
  timestamp : Int
  readings : List SensorReading
  flags : Int
deriving DecidableEq, Repr

/-- The exponent field of a single-precision bit pattern is not all ones,
and the pattern fits in 32 bits: this is the bit-level rendering of
math.isfinite on the decoded float. -/
def isfiniteBits (v : Nat) : Bool :=
  v < 2 ^ 32 && (v / 2 ^ 23) % 256 != 255

/-- Big-endian 4-byte encoding of a 32-bit word (struct format I or the
payload bytes of format f). -/
def be32enc (v : Nat) : List Nat :=
  [v / 2 ^ 24 % 256, v / 2 ^ 16 % 256, v / 2 ^ 8 % 256, v % 256]

/-- Big-endian 32-bit read at offset i (struct unpack of format I or the
value bytes of format f).  Out-of-range reads yield byte 0; callers check
lengths first, as the Python code does. -/
def be32dec (d : List Nat) (i : Nat) : Nat :=
  (d.getD i 0) * 2 ^ 24 + (d.getD (i + 1) 0) * 2 ^ 16 +
    (d.getD (i + 2) 0) * 2 ^ 8 + d.getD (i + 3) 0

/-- struct.pack range check for format B (one byte). -/
def packB (n : Int) : Except String (List Nat) :=
  if 0 ≤ n ∧ n < 256 then .ok [n.toNat] else .error "struct.error: B out of range"

/-- struct.pack range check for format H (two bytes, big-endian). -/
def packH (n : Int) : Except String (List Nat) :=
  if 0 ≤ n ∧ n < 65536 then .ok [n.toNat / 256, n.toNat % 256]
  else .error "struct.error: H out of range"

/-- struct.pack range check for format I (four bytes, big-endian). -/
def packI (n : Int) : Except String (List Nat) :=
  if 0 ≤ n ∧ n < 2 ^ 32 then .ok (be32enc n.toNat)
  else .error "struct.error: I out of range"

/-- encode_header of protocol_M_M.py: struct.pack of format !BBBHII over
(version, msg_type, flags, device_id, seq_num, timestamp). -/
def encode_header (version msg_type flags device_id seq_num timestamp : Int) :
    Except String (List Nat) := do
  let b1 ← packB version
  let b2 ← packB msg_type
  let b3 ← packB flags
  let b4 ← packH device_id
  let b5 ← packI seq_num
  let b6 ← packI timestamp
  pure (b1 ++ b2 ++ b3 ++ b4 ++ b5 ++ b6)

/-- encode_reading of protocol_M_M.py: one sensor-kind byte followed by
the four bytes of the value bit pattern.  It is only invoked after the
sensor kind and value have been validated. -/
def encode_reading (r : SensorReading) : List Nat :=
  r.sensor_type.toNat :: be32enc (r.value % 2 ^ 32)

/-- The per-reading validation loop of encode_packet: returns the first
error, if any. -/
def validateReadings : List SensorReading → Option String
  | [] => none
  | r :: rs =>
    if ¬ (r.sensor_type = SENSOR_TEMP ∨ r.sensor_type = SENSOR_HUM ∨
          r.sensor_type = SENSOR_VOLT) then
      some "Invalid sensor type in reading"
    else if ¬ isfiniteBits r.value then
      some "Invalid reading value in reading"
    else validateReadings rs

/-- encode_packet of protocol_M_M.py. -/
def encode_packet (p : TelemetryPacket) : Except String (List Nat) :=
  if p.version ≠ VERSION then .error "Invalid version"
  else if ¬ (p.msg_type = MSG_INIT ∨ p.msg_type = MSG_DATA ∨
             p.msg_type = MSG_HEARTBEAT) then .error "Unknown message type"
  else if p.device_id ∉ ALLOWED_DEVICE_IDS then .error "Invalid device ID"
  else if p.seq_num < 0 then .error "Invalid sequence number"
  else
    match encode_header p.version p.msg_type p.flags p.device_id p.seq_num
        p.timestamp with
    | .error e => .error e
    | .ok data =>
      if p.msg_type = MSG_INIT ∨ p.msg_type = MSG_HEARTBEAT then
        if p.readings.length ≠ 0 then
          .error "INIT or HEARTBEAT packets must not contain readings"
        else .ok data
      else if p.msg_type = MSG_DATA then
        if p.readings.length = 0 then
          .error "DATA packet must contain at least one reading"
        else if HEADER_SIZE + 1 + p.readings.length * READING_SIZE >
            PAYLOAD_LIMIT then
          .error "Packet exceeds payload limit"
        else
          match validateReadings p.readings with
          | some e => .error e
          | none =>
            .ok (data ++ [p.readings.length] ++
              (p.readings.map encode_reading).flatten)
      else .error "Unreachable encoding state"

/-- decode_header of protocol_M_M.py: length check then struct.unpack of
format !BBBHII. -/
def decode_header (d : List Nat) :
    Except String (Nat × Nat × Nat × Nat × Nat × Nat) :=
  if d.length < HEADER_SIZE then .error "Data too short for header"
  else .ok (d.getD 0 0, d.getD 1 0, d.getD 2 0,
    (d.getD 3 0) * 256 + d.getD 4 0, be32dec d 5, be32dec d 9)

/-- The reading-decoding loop of decode_packet: count iterations starting
at the given payload offset, five bytes per reading, validating the
sensor kind and value finiteness of each. -/
def decode_readings (payload : List Nat) : Nat → Nat →
    Except String (List SensorReading)
  | 0, _ => .ok []
  | n + 1, offset =>
    if offset + READING_SIZE > payload.length then
      .error "Truncated reading block"
    else
      let sensor_type : Int := (payload.getD offset 0 : Nat)
      let value := be32dec payload (offset + 1)
      if ¬ (sensor_type = SENSOR_TEMP ∨ sensor_type = SENSOR_HUM ∨
            sensor_type = SENSOR_VOLT) then
        .error "Invalid sensor_type in reading"
      else if ¬ isfiniteBits value then
        .error "Invalid reading value in reading"
      else
        match decode_readings payload n (offset + READING_SIZE) with
        | .error e => .error e
        | .ok rest => .ok (⟨sensor_type, value⟩ :: rest)

/-- decode_packet of protocol_M_M.py. -/
def decode_packet (d : List Nat) : Except String TelemetryPacket :=
  match decode_header d with
  | .error e => .error e
  | .ok (version, msg_type, flags, device_id, seq_num, timestamp) =>
    if (version : Int) ≠ VERSION then .error "Version mismatch"
    else if ¬ ((msg_type : Int) = MSG_INIT ∨ (msg_type : Int) = MSG_DATA ∨
               (msg_type : Int) = MSG_HEARTBEAT) then .error "Unknown msg_type"
    else if (device_id : Int) ∉ ALLOWED_DEVICE_IDS then .error "Invalid device_id"
    else if (seq_num : Int) < 0 then .error "Invalid sequence number"
    else
      let payload := d.drop HEADER_SIZE
      if (msg_type : Int) = MSG_INIT ∨ (msg_type : Int) = MSG_HEARTBEAT then
        if payload.length ≠ 0 then
          .error "INIT or HEARTBEAT packets must have no payload"
        else .ok ⟨version, msg_type, device_id, seq_num, timestamp, [], flags⟩
      else if (msg_type : Int) = MSG_DATA then
        if payload.length < 1 then .error "DATA packet missing reading_count byte"
        else
          let reading_count := payload.getD 0 0
          if reading_count = 0 then
            .error "DATA packet must contain at least 1 reading"
          else if payload.length < 1 + reading_count * READING_SIZE then
            .error "Truncated DATA packet"
          else if payload.length > 1 + reading_count * READING_SIZE then
            .error "Extra bytes in DATA packet"
          else
            match decode_readings payload reading_count 1 with
            | .error e => .error e
            | .ok readings =>
              if 1 + reading_count * READING_SIZE ≠ payload.length then
                .error "Unused bytes after readings"
              else
                .ok ⟨version, msg_type, device_id, seq_num, timestamp,
                  readings, flags⟩
      else .error "Unreachable decoding state"

/-- Test whether an Except result is an error (a raised exception). -/
def isErr {α : Type} (e : Except String α) : Bool :=
  match e with
  | .error _ => true
  | .ok _ => false

/-! ### Validity of a frame (the claim-side description of a valid Frame,
assembled from the invariants the codec enforces and the field widths of
the wire format) -/

/-- A reading with a recognised sensor kind and a finite 32-bit value. -/
def validReading (r : SensorReading) : Prop :=
  (r.sensor_type = SENSOR_TEMP ∨ r.sensor_type = SENSOR_HUM ∨
    r.sensor_type = SENSOR_VOLT) ∧ isfiniteBits r.value = true

instance (r : SensorReading) : Decidable (validReading r) := by
  unfold validReading; infer_instance

/-- A valid Frame: version 1, known kind, accepted device id, in-range
sequence, timestamp and flags, readings empty for INIT and HEARTBEAT and
nonempty with valid sensor kinds and finite values (at most 37, the
payload limit) for DATA. -/
def ValidFrame (p : TelemetryPacket) : Prop :=
  p.version = VERSION ∧
  (p.msg_type = MSG_INIT ∨ p.msg_type = MSG_DATA ∨
    p.msg_type = MSG_HEARTBEAT) ∧
  p.device_id ∈ ALLOWED_DEVICE_IDS ∧
  0 ≤ p.seq_num ∧ p.seq_num < 2 ^ 32 ∧
  0 ≤ p.timestamp ∧ p.timestamp < 2 ^ 32 ∧
  0 ≤ p.flags ∧ p.flags < 256 ∧
  ((p.msg_type = MSG_INIT ∨ p.msg_type = MSG_HEARTBEAT) → p.readings = []) ∧
  (p.msg_type = MSG_DATA →
    1 ≤ p.readings.length ∧ p.readings.length ≤ 37 ∧
    ∀ r ∈ p.readings, validReading r)

instance (p : TelemetryPacket) : Decidable (ValidFrame p) := by
  unfold ValidFrame; infer_instance

/-- The 13 header bytes a valid packet encodes to. -/
def headerList (p : TelemetryPacket) : List Nat :=
  p.version.toNat :: p.msg_type.toNat :: p.flags.toNat ::
    (p.device_id.toNat / 256) :: (p.device_id.toNat % 256) ::
    (be32enc p.seq_num.toNat ++ (be32enc p.timestamp.toNat ++ []))

/-! ### batch_packets of protocol_M_M.py -/

/-- Python max over a list of ints with default 0 for the empty list, as
max(generator, default=0) behaves when every element is present. -/
def pymaxI : List Int → Int
  | [] => 0
  | x :: xs => xs.foldl max x

/-- batch_packets of protocol_M_M.py: merge DATA packets of one device
into a single batched DATA packet. -/
def batch_packets : List TelemetryPacket → Except String TelemetryPacket
  | [] => .error "No packets are present for batching"
  | p0 :: rest =>
    if (p0 :: rest).any (fun p => p.msg_type ≠ MSG_DATA) then
      .error "Packet is not DATA so cannot batch"
    else if ((p0 :: rest).map (fun p => p.device_id)).dedup.length ≠ 1 then
      .error "Cannot batch packets from different devices"
    else
      let combined := ((p0 :: rest).map (fun p => p.readings)).flatten
      if HEADER_SIZE + 1 + combined.length * READING_SIZE > PAYLOAD_LIMIT then
        .error "Batched packet exceeds payload limit"
      else
        .ok ⟨VERSION, MSG_DATA, p0.device_id,
          pymaxI ((p0 :: rest).map (fun p => p.seq_num)),
          pymaxI ((p0 :: rest).map (fun p => p.timestamp)),
          combined, FLAG_BATCHING⟩

/-! ### Concrete frames and datagrams used by the rejection claims -/

/-- A temperature reading of 25.0 (bit pattern 0x41C80000). -/
def rTemp : SensorReading := ⟨1, 0x41C80000⟩

/-- Header bytes of a DATA frame from device 3001, seq 7, timestamp 100. -/
def hdrData : List Nat := [1, 1, 0, 11, 185] ++ be32enc 7 ++ be32enc 100

/-- Header bytes of the corresponding INIT frame. -/
def hdrInit : List Nat := [1, 0, 0, 11, 185] ++ be32enc 7 ++ be32enc 100

/-- Header bytes of the corresponding HEARTBEAT frame. -/
def hdrHB : List Nat := [1, 2, 0, 11, 185] ++ be32enc 7 ++ be32enc 100

/-- A well-formed single-reading DATA datagram. -/
def bytesOK : List Nat := hdrData ++ [1] ++ encode_reading rTemp

/-- A well-formed DATA datagram carrying 38 readings: 204 bytes in total,
beyond the 200-byte payload limit. -/
def bytes38 : List Nat :=
  hdrData ++ [38] ++ (List.replicate 38 (encode_reading rTemp)).flatten

/-- The 38-reading DATA frame the oversized datagram describes. -/
def pkt38 : TelemetryPacket := ⟨1, 1, 3001, 7, 100, List.replicate 38 rTemp, 0⟩

/-! ### The per-device reconciliation engine of src/server_besheer.py

The server decodes each datagram and hands it to _process_telemetry; the
state it keeps per device is independent across devices, so the model is
the state machine of one device.  Wall-clock instants (time.time and
datetime.now) are modelled by one rational-valued clock supplied with
each event; reading values are exact rationals.  A CSV cell holding a
sensor value is either the explicit null marker or a number rendered
with two fractional digits; the model keeps the number itself. -/

/-- A decoded reading as the server consumes it (value as a rational). -/
structure SReading where
  sensor_type : Int
  value : ℚ
deriving DecidableEq, Repr

/-- A decoded packet as the server consumes it. -/
structure SPacket where
  msg_type : Int
  device_id : Int
  seq_num : Int
  timestamp : Int
  readings : List SReading
  flags : Int
deriving DecidableEq, Repr

/-- One numeric CSV cell: the null marker written for a missing
component, or a present value. -/
inductive Cell where
  | null : Cell
  | val : ℚ → Cell
deriving DecidableEq, Repr, Inhabited

/-- The kind tag written in the Msg_Type column. -/
inductive RowKind where
  | INIT : RowKind
  | DATA : RowKind
  | HEARTBEAT : RowKind
deriving DecidableEq, Repr, Inhabited

/-- One row of the primary telemetry CSV (timestamp columns omitted:
rows are kept in emission order). -/
structure Row where
  device_id : Int
  seq : Int
  kind : RowKind
  is_dup : Nat
  is_gap : Nat
  temp : Cell
  humid : Cell
  volt : Cell
deriving DecidableEq, Repr, Inhabited

/-- The (temp, humid, volt) triple of optional values the server tracks. -/
abbrev Vals : Type := Option ℚ × Option ℚ × Option ℚ

/-- One buffered out-of-order packet with its recorded arrival time and
the logged marker the source stores (never read back). -/
structure BufEntry where
  packet : SPacket
  arrival_time : ℚ
  logged : Bool
deriving DecidableEq, Repr

/-- The per-device state record of server_besheer.Server.device_states.
The buffer is the OrderedDict re-sorted ascending by sequence after
every insertion, held as a sorted association list. -/
structure DState where
  last_seq : Int
  packets : Nat
  duplicates : Nat
  gaps : Int
  buffer : List (Int × BufEntry)
  last_values : Option Vals
  gap_start_time : Option ℚ
  is_batch_mode : Bool
deriving DecidableEq, Repr

/-- The defaultdict initial value for a freshly sighted device. -/
def initDState : DState :=
  ⟨-1, 0, 0, 0, [], none, none, false⟩

/-- Server configuration: buffer capacity and gap wait (seconds). -/
structure Config where
  max_buffer_size : Nat
  max_gap_wait_seconds : ℚ
deriving Repr

/-- Server._get_packet_values: extract the (temp, humid, volt) triple
from the readings by sensor type; the last occurrence of a type wins. -/
def get_packet_values (p : SPacket) : Vals :=
  p.readings.foldl (fun (acc : Vals) r =>
    if r.sensor_type = SENSOR_TEMP then (some r.value, acc.2.1, acc.2.2)
    else if r.sensor_type = SENSOR_HUM then (acc.1, some r.value, acc.2.2)
    else if r.sensor_type = SENSOR_VOLT then (acc.1, acc.2.1, some r.value)
    else acc) (none, none, none)

/-- Helper for Server._get_first_packet_values: keep the first
occurrence of each sensor type. -/
def firstVals : List SReading → Option ℚ → Option ℚ → Option ℚ → Vals
  | [], t, h, v => (t, h, v)
  | r :: rs, t, h, v =>
    if r.sensor_type = SENSOR_TEMP then
      firstVals rs (match t with | some x => some x | none => some r.value) h v
    else if r.sensor_type = SENSOR_HUM then
      firstVals rs t (match h with | some x => some x | none => some r.value) v
    else if r.sensor_type = SENSOR_VOLT then
      firstVals rs t h (match v with | some x => some x | none => some r.value)
    else firstVals rs t h v

/-- Server._get_first_packet_values. -/
def get_first_packet_values (p : SPacket) : Vals :=
  firstVals p.readings none none none

/-- Rendering of an optional component in server_besheer: a present
value is written with two decimals, an absent one as the null marker. -/
def fmtCell : Option ℚ → Cell
  | some q => .val q
  | none => .null

/-- Python sum(l) / len(l) if l else None. -/
def avgOpt (l : List ℚ) : Option ℚ :=
  if l = [] then none else some (l.sum / (l.length : ℚ))

/-- Server._log_data_packet, restricted to the row it writes to the
primary CSV.  A batched packet is logged as the per-type averages of its
readings; an unbatched one as its (last-occurrence) component values. -/
def log_data_row (p : SPacket) (is_dup is_gap : Nat) : Row :=
  if p.flags % 2 = 1 then
    ⟨p.device_id, p.seq_num, .DATA, is_dup, is_gap,
      fmtCell (avgOpt ((p.readings.filter
        (fun r => r.sensor_type = SENSOR_TEMP)).map (fun r => r.value))),
      fmtCell (avgOpt ((p.readings.filter
        (fun r => r.sensor_type = SENSOR_HUM)).map (fun r => r.value))),
      fmtCell (avgOpt ((p.readings.filter
        (fun r => r.sensor_type = SENSOR_VOLT)).map (fun r => r.value)))⟩
  else
    ⟨p.device_id, p.seq_num, .DATA, is_dup, is_gap,
      fmtCell (get_packet_values p).1,
      fmtCell (get_packet_values p).2.1,
      fmtCell (get_packet_values p).2.2⟩

/-- The per-component interpolation step of Server._interpolate_and_log:
None when either endpoint lacks the component. -/
def mkStep (sv ev : Option ℚ) (divisor : ℚ) : Option ℚ :=
  match sv, ev with
  | some a, some b => some ((b - a) / divisor)
  | _, _ => none

/-- Steps for all three components. -/
def mkSteps (sv ev : Vals) (divisor : ℚ) : Vals :=
  (mkStep sv.1 ev.1 divisor, mkStep sv.2.1 ev.2.1 divisor,
    mkStep sv.2.2 ev.2.2 divisor)

/-- One increment of a running component value: applied only when both
the step and the current value are present. -/
def advance1 (cur step : Option ℚ) : Option ℚ :=
  match step, cur with
  | some s, some c => some (c + s)
  | _, _ => cur

/-- One increment of the running triple. -/
def advanceVals (cur steps : Vals) : Vals :=
  (advance1 cur.1 steps.1, advance1 cur.2.1 steps.2.1,
    advance1 cur.2.2 steps.2.2)

/-- The normal-mode (batch size at most 1) loop of
Server._interpolate_and_log: one advance and one row per missing
sequence. -/
def normalLoop (dev : Int) (seqv : Int) (steps : Vals) (cur : Vals)
    (is_dup is_gap : Nat) : Nat → List Row
  | 0 => []
  | k + 1 =>
    let cur1 := advanceVals cur steps
    ⟨dev, seqv, .DATA, is_dup, is_gap, fmtCell cur1.1, fmtCell cur1.2.1,
      fmtCell cur1.2.2⟩ ::
      normalLoop dev (seqv + 1) steps cur1 is_dup is_gap k

/-- Append a present component value to the per-sensor collection list
(absent components are skipped, as in the source). -/
def optCons (o : Option ℚ) (l : List ℚ) : List ℚ :=
  match o with
  | some x => x :: l
  | none => l

/-- The inner (per-reading) loop of the batch branch: advance the
running values the batch-size many times, collecting each present
component value; returns the final running values and the collected
per-component lists. -/
def batchInnerLoop (steps : Vals) (cur : Vals) :
    Nat → Vals × (List ℚ × List ℚ × List ℚ)
  | 0 => (cur, ([], [], []))
  | k + 1 =>
    let cur1 := advanceVals cur steps
    let rest := batchInnerLoop steps cur1 k
    (rest.1, (optCons cur1.1 rest.2.1, optCons cur1.2.1 rest.2.2.1,
      optCons cur1.2.2 rest.2.2.2))

/-- The outer (per-packet) loop of the batch branch: each synthesized
row carries the per-component averages of its sub-steps. -/
def batchOuterLoop (dev : Int) (seqv : Int) (steps : Vals) (cur : Vals)
    (is_dup is_gap : Nat) (bsz : Nat) : Nat → List Row
  | 0 => []
  | k + 1 =>
    let inner := batchInnerLoop steps cur bsz
    ⟨dev, seqv, .DATA, is_dup, is_gap, fmtCell (avgOpt inner.2.1),
      fmtCell (avgOpt inner.2.2.1), fmtCell (avgOpt inner.2.2.2)⟩ ::
      batchOuterLoop dev (seqv + 1) steps inner.1 is_dup is_gap bsz k

/-- Server._interpolate_and_log, restricted to the rows it writes to the
primary CSV. -/
def interpolate_rows (dev : Int) (start_seq end_seq : Int)
    (start_vals0 : Option Vals) (end_vals : Vals) (is_dup is_gap : Nat)
    (batch_size : Nat) : List Row :=
  let count : Int := end_seq - start_seq - 1
  if count ≤ 0 then []
  else
    let start_vals := start_vals0.getD end_vals
    if batch_size > 1 then
      let divisor : ℚ := ((count.toNat * batch_size : Nat) : ℚ) + 1
      batchOuterLoop dev (start_seq + 1)
        (mkSteps start_vals end_vals divisor) start_vals is_dup is_gap
        batch_size count.toNat
    else
      let divisor : ℚ := ((count.toNat : Nat) : ℚ) + 1
      normalLoop dev (start_seq + 1)
        (mkSteps start_vals end_vals divisor) start_vals is_dup is_gap
        count.toNat

/-- OrderedDict assignment followed by re-sorting on keys, on a sorted
association list: replace the entry when the key is present, insert in
order when absent. -/
def odInsert : List (Int × BufEntry) → Int → BufEntry → List (Int × BufEntry)
  | [], k, v => [(k, v)]
  | (k1, v1) :: rest, k, v =>
    if k < k1 then (k, v) :: (k1, v1) :: rest
    else if k = k1 then (k, v) :: rest
    else (k1, v1) :: odInsert rest k v

/-- Server._add_to_buffer: evict the first (lowest) entry at capacity,
store the packet under its sequence, and open the gap timer when no gap
is open. -/
def add_to_buffer (cfg : Config) (st : DState) (p : SPacket) (now : ℚ) :
    DState :=
  let buf := st.buffer
  let buf := if buf.length ≥ cfg.max_buffer_size then buf.tail else buf
  let buf := odInsert buf p.seq_num ⟨p, now, false⟩
  { st with
    buffer := buf,
    gap_start_time :=
      match st.gap_start_time with
      | none => some now
      | some t => some t }

/-- The while-loop of Server._process_buffered_packets: release buffered
packets while the lowest key is the successor of the last emitted
sequence.  Returns the new last sequence, the remaining buffer, the rows
released, and the values of the last released packet (if any). -/
def drainLoop : Int → List (Int × BufEntry) →
    Int × List (Int × BufEntry) × List Row × Option Vals
  | last, [] => (last, [], [], none)
  | last, (k, e) :: rest =>
    if k = last + 1 then
      let r := drainLoop k rest
      (r.1, r.2.1, log_data_row e.packet 0 0 :: r.2.2.1,
        match r.2.2.2 with
        | some v => some v
        | none => some (get_packet_values e.packet))
    else (last, (k, e) :: rest, [], none)

/-- Server._process_buffered_packets. -/
def process_buffered (st : DState) : DState × List Row :=
  let r := drainLoop st.last_seq st.buffer
  let st1 : DState :=
    { st with
      last_seq := r.1,
      buffer := r.2.1,
      last_values :=
        match r.2.2.2 with
        | some v => some v
        | none => st.last_values }
  let st2 := if r.2.1 = [] then { st1 with gap_start_time := none } else st1
  (st2, r.2.2.1)

/-- Server._process_telemetry for one packet of this device, at the
given wall-clock instant.  Returns the new device state and the rows
written to the primary CSV, in order. -/
def process_telemetry (cfg : Config) (st0 : DState) (p : SPacket)
    (now : ℚ) : DState × List Row :=
  let st := { st0 with
    packets := st0.packets + 1,
    is_batch_mode := p.flags % 2 = 1 }
  let current_seq := p.seq_num
  let last_seq := st.last_seq
  if p.msg_type ≠ MSG_DATA then
    if p.msg_type = MSG_INIT then
      let st := { st with
        last_seq := p.seq_num, last_values := none, gap_start_time := none }
      let r := process_buffered st
      (r.1, ⟨p.device_id, p.seq_num, .INIT, 0, 0, .null, .null, .null⟩ :: r.2)
    else if p.msg_type = MSG_HEARTBEAT then
      if last_seq ≠ -1 ∧ current_seq ≤ last_seq then
        ({ st with duplicates := st.duplicates + 1 },
          [⟨p.device_id, p.seq_num, .HEARTBEAT, 1, 0, .null, .null, .null⟩])
      else
        let isGap : Bool := last_seq ≠ -1 ∧ current_seq > last_seq + 1
        let gapRows : List Row :=
          if isGap then
            [⟨p.device_id, p.seq_num, .HEARTBEAT, 0, 1, .null, .null, .null⟩]
          else []
        let st := if isGap then
            { st with gaps := st.gaps + (current_seq - (last_seq + 1)) }
          else st
        let st := { st with last_seq := current_seq, gap_start_time := none }
        (st, gapRows ++ [⟨p.device_id, p.seq_num, .HEARTBEAT, 0,
          if isGap then 1 else 0, .null, .null, .null⟩])
    else
      (st, [])
  else
    if current_seq ≤ last_seq then
      ({ st with duplicates := st.duplicates + 1 }, [log_data_row p 1 0])
    else if current_seq = last_seq + 1 then
      let st := { st with
        last_values := some (get_packet_values p),
        last_seq := current_seq, gap_start_time := none }
      let r := process_buffered st
      (r.1, log_data_row p 0 0 :: r.2)
    else
      match st.gap_start_time with
      | some t0 =>
        if now - t0 > cfg.max_gap_wait_seconds then
          let nextPair :=
            match st.buffer with
            | (k, e) :: _ => (k, e.packet)
            | [] => (current_seq, p)
          let next_avail_seq := nextPair.1
          let next_packet := nextPair.2
          let batch_size := next_packet.readings.length
          let start_vals := st.last_values
          let end_vals := get_first_packet_values next_packet
          let gap_size := next_avail_seq - last_seq - 1
          let irows := interpolate_rows p.device_id last_seq next_avail_seq
            start_vals end_vals 0 1 batch_size
          let st := { st with
            gaps := st.gaps + gap_size,
            last_seq := next_avail_seq - 1, gap_start_time := none }
          let r :=
            if current_seq = st.last_seq + 1 then
              ({ st with
                last_values := some (get_packet_values p),
                last_seq := current_seq }, [log_data_row p 0 0])
            else
              process_buffered st
          let st2 := if current_seq > r.1.last_seq + 1 then
              add_to_buffer cfg r.1 p now
            else r.1
          (st2, irows ++ r.2)
        else
          (add_to_buffer cfg st p now, [])
      | none => (add_to_buffer cfg st p now, [])

/-- Server._cleanup_old_buffers restricted to this device: when the
oldest buffered entry is older than twice the gap wait, interpolate up
to the lowest buffered sequence and drain. -/
def cleanup_device (cfg : Config) (st : DState) (now : ℚ) :
    DState × List Row :=
  match st.buffer with
  | [] => (st, [])
  | (k0, e0) :: _ =>
    if now - e0.arrival_time > cfg.max_gap_wait_seconds * 2 then
      let batch_size := e0.packet.readings.length
      let irows := interpolate_rows e0.packet.device_id st.last_seq k0
        st.last_values (get_first_packet_values e0.packet) 0 1 batch_size
      let st1 := { st with last_seq := k0 - 1 }
      let r := process_buffered st1
      (r.1, irows ++ r.2)
    else (st, [])

/-- An event seen by one device: a packet arrival or a maintenance
sweep, each at a wall-clock instant. -/
inductive Event where
  | pkt : SPacket → ℚ → Event
  | sweep : ℚ → Event
deriving Repr

/-- One event step. -/
def stepEvent (cfg : Config) (st : DState) : Event → DState × List Row
  | .pkt p now => process_telemetry cfg st p now
  | .sweep now => cleanup_device cfg st now

/-- Run a sequence of events, concatenating the emitted rows. -/
def runEvents (cfg : Config) (st : DState) : List Event → DState × List Row
  | [] => (st, [])
  | e :: es =>
    let r1 := stepEvent cfg st e
    let r2 := runEvents cfg r1.1 es
    (r2.1, r1.2 ++ r2.2)

/-- The row formatting of the simple collector src/server.py (lines
44-51): components are read positionally and a component is written
with two decimals only when it is truthy in Python, so both a missing
component and a real 0.0 reading render as the empty marker. -/
def truthyCell : Option ℚ → Cell
  | some q => if q = 0 then .null else .val q
  | none => .null

/-- The (Temp_C, Humid_Pct, Volt_V) cells src/server.py writes for a
DATA packet. -/
def serverPy_row (p : SPacket) : Cell × Cell × Cell :=
  (truthyCell (p.readings[0]?.map (fun r => r.value)),
   truthyCell (p.readings[1]?.map (fun r => r.value)),
   truthyCell (p.readings[2]?.map (fun r => r.value)))

/-- The component of a value triple selected by sensor kind. -/
def valsComp (s : Int) (v : Vals) : Option ℚ :=
  if s = SENSOR_TEMP then v.1
  else if s = SENSOR_HUM then v.2.1
  else v.2.2

/-- The cell of a row selected by sensor kind. -/
def rowComp (s : Int) (r : Row) : Cell :=
  if s = SENSOR_TEMP then r.temp
  else if s = SENSOR_HUM then r.humid
  else r.volt

/-- Closed form of one interpolated component after i advances: absent
while the running value is absent, frozen at the left value when the
step is absent, and the left value plus i steps otherwise. -/
def cellN (step cur : Option ℚ) (i : Nat) : Cell :=
  match cur with
  | none => .null
  | some c =>
    match step with
    | none => .val c
    | some s => .val (c + i * s)

/-- Well-formedness of a device state reachable by DATA-only traffic:
the buffer is sorted by sequence, every buffered sequence lies beyond
the last emitted one, and every entry is keyed by the sequence number of
the packet it holds. -/
def goodBuf (st : DState) : Prop :=
  List.Chain' (fun x y => x.1 < y.1) st.buffer ∧
  (∀ kv ∈ st.buffer, st.last_seq < kv.1) ∧
  (∀ kv ∈ st.buffer, kv.2.packet.seq_num = kv.1)

/-- The rows a step may emit between two last-emitted marks: every
non-duplicate row lies in the half-open interval, and the non-duplicate
rows are strictly increasing. -/
def rowsOK (lo hi : Int) (rows : List Row) : Prop :=
  (∀ row ∈ rows, row.is_dup = 0 → lo < row.seq ∧ row.seq ≤ hi) ∧
  List.Pairwise (fun x y => x.seq < y.seq)
    (rows.filter (fun r => r.is_dup = 0))

/-- The sequence number an event contributes, if it is a packet. -/
def evSeq : Event → Option Int
  | .pkt p _ => some p.seq_num
  | .sweep _ => none

/-! ### Concrete fixtures for the server claims -/

/-- A configuration with capacity 100 and a 5-second gap wait. -/
def cfgEx : Config := ⟨100, 5⟩

/-- A single-temperature DATA packet with sequence 4 and value 30. -/
def pktEx4 : SPacket := ⟨1, 3001, 4, 0, [⟨1, 30⟩], 0⟩

/-- A buffered copy of that packet recorded at time 1. -/
def entryEx4 : BufEntry := ⟨pktEx4, 1, false⟩

/-- A device state that has emitted sequence 0 with temperature 20 and
holds sequence 4 in its reorder buffer since time 1. -/
def stEx : DState :=
  ⟨0, 1, 0, 0, [(4, entryEx4)], some (some 20, none, none), some 1, false⟩

/-- A voltage-only DATA packet with sequence 2 and value 5. -/
def pktExV : SPacket := ⟨1, 3001, 2, 0, [⟨3, 5⟩], 0⟩

/-- A buffered copy of the voltage-only packet recorded at time 1. -/
def entryExV : BufEntry := ⟨pktExV, 1, false⟩

/-- A device state that has emitted sequence 0 with temperature 10 and
holds the voltage-only sequence 2 in its buffer since time 1. -/
def stExV : DState :=
  ⟨0, 1, 0, 0, [(2, entryExV)], some (some 10, none, none), some 1, false⟩

/-- A single-temperature DATA packet carrying the given sequence
number. -/
def mkD (s : Int) : SPacket := ⟨1, 3001, s, 0, [⟨1, 20⟩], 0⟩

/-- A DATA-only trace in which the out-of-order frames 2 and 4 are each
delivered twice, the repeats arriving after the gap wait has elapsed. -/
def trC6a : List Event :=
  [.pkt (mkD 0) 0, .pkt (mkD 2) 0, .pkt (mkD 2) 6, .pkt (mkD 4) 6,
   .pkt (mkD 4) 12]

/-- A trace in which a HEARTBEAT with sequence 2 arrives right after
DATA sequence 0. -/
def trC6b : List Event := [.pkt (mkD 0) 0, .pkt ⟨2, 3001, 2, 0, [], 0⟩ 0]

/-- A trace delivering the permutation 0, 3, 2, 1 of four DATA frames,
the last two arriving after the gap wait has elapsed. -/
def trC4b : List Event :=
  [.pkt (mkD 0) 0, .pkt (mkD 3) 0, .pkt (mkD 2) 10, .pkt (mkD 1) 10]

/-- A configuration whose reorder buffer holds a single packet. -/
def cfgSmall : Config := ⟨1, 5⟩

/-- A configuration with a negative gap wait. -/
def cfgNeg : Config := ⟨100, -1⟩

/-- A trace delivering the permutation 0, 2, 3, 1 of four DATA frames
at one instant. -/
def trC4c : List Event :=
  [.pkt (mkD 0) 0, .pkt (mkD 2) 0, .pkt (mkD 3) 0, .pkt (mkD 1) 0]

/-- Ordered insertion of a sequence number into the sorted list of
buffered sequence numbers, mirroring odInsert on the keys alone. -/
def natInsert (s : ℕ) : List ℕ → List ℕ
  | [] => [s]
  | k :: rest =>
    if s < k then s :: k :: rest
    else if s = k then s :: rest
    else k :: natInsert s rest

/-- The reorder buffer holding exactly the packets with the given
sequence numbers, all received at instant 0. -/
def bufOf (p : ℕ → SPacket) (ks : List ℕ) : List (Int × BufEntry) :=
  ks.map (fun (k : ℕ) => ((k : Int), (⟨p k, 0, false⟩ : BufEntry)))

/-- The state entering _process_buffered_packets on the in-order path of
_process_telemetry. -/
def inorderState (st : DState) (q : SPacket) : DState :=
  { st with
    packets := st.packets + 1,
    is_batch_mode := decide (q.flags % 2 = 1),
    last_values := some (get_packet_values q),
    last_seq := q.seq_num,
    gap_start_time := none }

/-- The state produced by the buffering path of _process_telemetry. -/
def gapBufState (cfg : Config) (st : DState) (q : SPacket) (now : ℚ) :
    DState :=
  add_to_buffer cfg
    { st with
      packets := st.packets + 1,
      is_batch_mode := decide (q.flags % 2 = 1) } q now

/-! ### Codec round-trip lemmas -/

theorem getD_drop_shift (l : List Nat) (k i d : Nat) :
    (l.drop k).getD i d = l.getD (k + i) d := by
  simp [List.getD_eq_getElem?_getD, List.getElem?_drop]

theorem be32_parts (v : Nat) (h : v < 2 ^ 32) :
    (v / 2 ^ 24 % 256) * 2 ^ 24 + (v / 2 ^ 16 % 256) * 2 ^ 16 +
      (v / 2 ^ 8 % 256) * 2 ^ 8 + v % 256 = v := by
  omega

theorem isfiniteBits_lt (v : Nat) (h : isfiniteBits v = true) : v < 2 ^ 32 := by
  unfold isfiniteBits at h
  simpa using (Bool.and_eq_true _ _ |>.mp h).1

/-- decode_header on an explicitly laid-out 13-byte header followed by any
payload recovers the packed fields. -/
theorem decode_header_enc (v m f dev s ts : Nat) (hs : s < 2 ^ 32)
    (hts : ts < 2 ^ 32) (rest : List Nat) :
    decode_header (v :: m :: f :: (dev / 256) :: (dev % 256) ::
        (be32enc s ++ (be32enc ts ++ rest))) =
      .ok (v, m, f, (dev / 256) * 256 + dev % 256, s, ts) := by
  simp only [decode_header, be32enc, be32dec, HEADER_SIZE, List.cons_append,
    List.nil_append, List.length_cons]
  rw [if_neg (by simp)]
  simp only [List.getD_cons_zero, List.getD_cons_succ]
  rw [be32_parts s hs, be32_parts ts hts]

/-- encode_header succeeds and produces the explicit 13-byte layout when
every field is in range for its struct format. -/
theorem encode_header_ok (version msg_type flags device_id seq_num timestamp : Int)
    (h1 : 0 ≤ version) (h2 : version < 256) (h3 : 0 ≤ msg_type)
    (h4 : msg_type < 256) (h5 : 0 ≤ flags) (h6 : flags < 256)
    (h7 : 0 ≤ device_id) (h8 : device_id < 65536) (h9 : 0 ≤ seq_num)
    (h10 : seq_num < 2 ^ 32) (h11 : 0 ≤ timestamp) (h12 : timestamp < 2 ^ 32) :
    encode_header version msg_type flags device_id seq_num timestamp =
      .ok (version.toNat :: msg_type.toNat :: flags.toNat ::
        (device_id.toNat / 256) :: (device_id.toNat % 256) ::
        (be32enc seq_num.toNat ++ (be32enc timestamp.toNat ++ []))) := by
  unfold encode_header packB packH packI
  rw [if_pos ⟨h1, h2⟩, if_pos ⟨h3, h4⟩, if_pos ⟨h5, h6⟩, if_pos ⟨h7, h8⟩,
    if_pos ⟨h9, h10⟩, if_pos ⟨h11, h12⟩]
  rfl

/-- The validation loop accepts a list of valid readings. -/
theorem validateReadings_ok (rs : List SensorReading)
    (h : ∀ r ∈ rs, validReading r) : validateReadings rs = none := by
  induction rs with
  | nil => rfl
  | cons r rs ih =>
    have hr := h r (List.mem_cons_self r rs)
    unfold validateReadings
    rw [if_neg (not_not_intro hr.1), if_neg (not_not_intro hr.2)]
    exact ih (fun x hx => h x (List.mem_cons_of_mem r hx))

/-- Each encoded reading occupies exactly five bytes. -/
theorem encode_reading_length (r : SensorReading) :
    (encode_reading r).length = 5 := rfl

/-- The concatenation of the encoded readings has length five per reading. -/
theorem encoded_readings_length (rs : List SensorReading) :
    ((rs.map encode_reading).flatten).length = rs.length * 5 := by
  induction rs with
  | nil => rfl
  | cons r rs ih => simp [encode_reading, be32enc, ih]; ring

/-- The reading-decoding loop inverts the reading encoder on a payload
whose suffix at the given offset is exactly the encoded readings. -/
theorem decode_readings_ok (rs : List SensorReading)
    (h : ∀ r ∈ rs, validReading r) (payload : List Nat) :
    ∀ k, payload.drop k = (rs.map encode_reading).flatten →
    decode_readings payload rs.length k = .ok rs := by
  induction rs with
  | nil => intro k _; rfl
  | cons r rs ih =>
    intro k hk
    have hr : validReading r := h r (List.mem_cons_self r rs)
    have hval : r.value < 2 ^ 32 := isfiniteBits_lt r.value hr.2
    have hmod : r.value % 2 ^ 32 = r.value := Nat.mod_eq_of_lt hval
    have hsnn : 0 ≤ r.sensor_type := by
      rcases hr.1 with h | h | h <;> rw [h] <;> decide
    have hklt : k < payload.length := by
      by_contra hc
      have : payload.drop k = [] := List.drop_eq_nil_of_le (by omega)
      rw [this] at hk
      simp [encode_reading] at hk
    have hlen : payload.length - k = (rs.length + 1) * 5 := by
      have h' := congrArg List.length hk
      rw [List.length_drop, encoded_readings_length, List.length_cons] at h'
      exact h'
    have hgetD : ∀ i d, i < 5 → payload.getD (k + i) d =
        (encode_reading r).getD i d := by
      intro i d hi
      rw [← getD_drop_shift, hk]
      simp only [List.map_cons, List.flatten_cons]
      rw [List.getD_append]
      · rw [encode_reading_length]; exact hi
    rw [List.length_cons]
    simp only [decode_readings]
    rw [if_neg (by simp [READING_SIZE]; omega)]
    have hsens : payload.getD k 0 = r.sensor_type.toNat := by
      have := hgetD 0 0 (by omega)
      simpa [encode_reading] using this
    have hbytes : ∀ i, i < 4 → payload.getD (k + 1 + i) 0 =
        (be32enc r.value).getD i 0 := by
      intro i hi
      have hx := hgetD (i + 1) 0 (by omega)
      rw [show k + (i + 1) = k + 1 + i by omega] at hx
      rw [hx]
      unfold encode_reading
      rw [hmod, List.getD_cons_succ]
    have hvaldec : be32dec payload (k + 1) = r.value := by
      unfold be32dec
      have h0 := hbytes 0 (by omega)
      have h1 := hbytes 1 (by omega)
      have h2 := hbytes 2 (by omega)
      have h3 := hbytes 3 (by omega)
      simp only [Nat.add_zero] at h0
      rw [show k + 1 + 1 = k + 1 + 1 by rfl] at h1
      rw [h0, h1, h2, h3]
      simp only [be32enc, List.getD_cons_zero, List.getD_cons_succ]
      exact be32_parts r.value hval
    rw [hsens, hvaldec]
    have hcast : ((r.sensor_type.toNat : Nat) : Int) = r.sensor_type :=
      Int.toNat_of_nonneg hsnn
    rw [if_neg (by rw [hcast]; exact not_not_intro hr.1),
        if_neg (not_not_intro hr.2)]
    have hdrop5 : payload.drop (k + READING_SIZE) =
        (rs.map encode_reading).flatten := by
      have : payload.drop (k + READING_SIZE) = (payload.drop k).drop 5 := by
        rw [List.drop_drop]
        rfl
      rw [this, hk]
      simp [encode_reading, be32enc]
    rw [ih (fun x hx => h x (List.mem_cons_of_mem r hx)) (k + READING_SIZE) hdrop5]
    show Except.ok
      ({ sensor_type := ((r.sensor_type.toNat : Nat) : Int),
         value := r.value } :: rs) = Except.ok (r :: rs)
    rw [hcast]

theorem headerList_length (p : TelemetryPacket) :
    (headerList p).length = 13 := by
  simp [headerList, be32enc]

theorem headerList_drop (p : TelemetryPacket) (rest : List Nat) :
    (headerList p ++ rest).drop 13 = rest := by
  have h := List.drop_left (headerList p) rest
  rw [headerList_length p] at h
  exact h

/-- Bounds of the fields of a valid frame, as needed by the struct packer. -/
theorem ValidFrame.bounds {p : TelemetryPacket} (h : ValidFrame p) :
    0 ≤ p.version ∧ p.version < 256 ∧ 0 ≤ p.msg_type ∧ p.msg_type < 256 ∧
      0 ≤ p.device_id ∧ p.device_id < 65536 := by
  obtain ⟨h1, h2, h3, _⟩ := h
  have hd : p.device_id = 3001 ∨ p.device_id = 3002 ∨ p.device_id = 3003 := by
    simpa [ALLOWED_DEVICE_IDS] using h3
  constructor
  · rw [h1]; decide
  constructor
  · rw [h1]; decide
  constructor
  · rcases h2 with h | h | h <;> rw [h] <;> decide
  constructor
  · rcases h2 with h | h | h <;> rw [h] <;> decide
  constructor
  · rcases hd with h | h | h <;> rw [h] <;> decide
  · rcases hd with h | h | h <;> rw [h] <;> decide

/-- A valid frame encodes successfully to its header bytes followed by the
DATA payload (reading count byte then the encoded readings) when it is a
DATA frame, and to the bare header otherwise. -/
theorem encode_packet_valid (p : TelemetryPacket) (h : ValidFrame p) :
    encode_packet p = .ok (headerList p ++
      (if p.msg_type = MSG_DATA then
        p.readings.length :: (p.readings.map encode_reading).flatten
      else [])) := by
  obtain ⟨hb1, hb2, hb3, hb4, hb5, hb6⟩ := h.bounds
  obtain ⟨h1, h2, h3, h4, h5, h6, h7, h8, h9, h10, h11⟩ := h
  unfold encode_packet
  rw [if_neg (not_not_intro h1), if_neg (not_not_intro h2),
    if_neg (not_not_intro h3), if_neg (not_lt.mpr h4),
    encode_header_ok p.version p.msg_type p.flags p.device_id p.seq_num
      p.timestamp hb1 hb2 hb3 hb4 h8 h9 hb5 hb6 h4 h5 h6 h7]
  dsimp only
  rcases h2 with hm | hm | hm
  · rw [if_pos (Or.inl hm)]
    rw [if_neg (not_not_intro (by simp [h10 (Or.inl hm)]))]
    simp [headerList, hm, MSG_INIT, MSG_DATA]
  · rw [if_neg (by rw [hm]; decide), if_pos hm]
    obtain ⟨hn1, hn2, hn3⟩ := h11 hm
    rw [if_neg (by omega)]
    rw [if_neg (by simp only [HEADER_SIZE, READING_SIZE, PAYLOAD_LIMIT]; omega)]
    rw [validateReadings_ok p.readings hn3]
    simp [headerList, hm]
  · rw [if_pos (Or.inr hm)]
    rw [if_neg (not_not_intro (by simp [h10 (Or.inr hm)]))]
    simp [headerList, hm, MSG_HEARTBEAT, MSG_DATA]

/-- Decoding the header bytes of a valid frame recovers its fields. -/
theorem decode_header_headerList (p : TelemetryPacket) (h : ValidFrame p)
    (rest : List Nat) :
    decode_header (headerList p ++ rest) =
      .ok (p.version.toNat, p.msg_type.toNat, p.flags.toNat,
        p.device_id.toNat, p.seq_num.toNat, p.timestamp.toNat) := by
  obtain ⟨hb1, hb2, hb3, hb4, hb5, hb6⟩ := h.bounds
  obtain ⟨h1, h2, h3, h4, h5, h6, h7, h8, h9, h10, h11⟩ := h
  have hkey : headerList p ++ rest =
      p.version.toNat :: p.msg_type.toNat :: p.flags.toNat ::
        (p.device_id.toNat / 256) :: (p.device_id.toNat % 256) ::
        (be32enc p.seq_num.toNat ++ (be32enc p.timestamp.toNat ++ rest)) := by
    simp [headerList]
  rw [hkey, decode_header_enc _ _ _ _ _ _
    (by omega) (by omega) rest]
  have hdev : p.device_id.toNat / 256 * 256 + p.device_id.toNat % 256 =
      p.device_id.toNat := by omega
  rw [hdev]

/-- Cast facts for the decoded fields of a valid frame. -/
theorem ValidFrame.casts {p : TelemetryPacket} (h : ValidFrame p) :
    ((p.version.toNat : Nat) : Int) = p.version ∧
    ((p.msg_type.toNat : Nat) : Int) = p.msg_type ∧
    ((p.device_id.toNat : Nat) : Int) = p.device_id ∧
    ((p.seq_num.toNat : Nat) : Int) = p.seq_num ∧
    ((p.timestamp.toNat : Nat) : Int) = p.timestamp ∧
    ((p.flags.toNat : Nat) : Int) = p.flags := by
  obtain ⟨hb1, _, hb3, _, hb5, _⟩ := h.bounds
  obtain ⟨_, _, _, h4, _, h6, _, h8, _⟩ := h
  exact ⟨Int.toNat_of_nonneg hb1, Int.toNat_of_nonneg hb3,
    Int.toNat_of_nonneg hb5, Int.toNat_of_nonneg h4,
    Int.toNat_of_nonneg h6, Int.toNat_of_nonneg h8⟩

/-- Decoding an encoded valid frame recovers the frame. -/
theorem decode_encode_valid (p : TelemetryPacket) (h : ValidFrame p) :
    decode_packet (headerList p ++
      (if p.msg_type = MSG_DATA then
        p.readings.length :: (p.readings.map encode_reading).flatten
      else [])) = .ok p := by
  obtain ⟨hc1, hc2, hc3, hc4, hc5, hc6⟩ := h.casts
  have hhdr := decode_header_headerList p h
  obtain ⟨h1, h2, h3, h4, h5, h6, h7, h8, h9, h10, h11⟩ := h
  unfold decode_packet
  rw [hhdr]
  dsimp only
  simp only [hc1, hc2, hc3, hc4, hc5, hc6]
  rw [if_neg (not_not_intro h1)]
  rw [if_neg (not_not_intro h2)]
  rw [if_neg (not_not_intro h3)]
  rw [if_neg (not_lt.mpr h4)]
  rw [show (HEADER_SIZE : Nat) = 13 from rfl, headerList_drop]
  rcases h2 with hm | hm | hm
  · have hnd : ¬(p.msg_type = MSG_DATA) := by rw [hm]; decide
    rw [if_neg hnd, if_pos (Or.inl hm)]
    rw [if_neg (not_not_intro (by simp))]
    have hre : p.readings = [] := h10 (Or.inl hm)
    rw [← hre]
  · obtain ⟨hn1, hn2, hn3⟩ := h11 hm
    rw [if_pos hm]
    rw [if_neg (by rw [hm]; decide)]
    rw [if_pos hm]
    rw [if_neg (by simp)]
    have hget0 : (p.readings.length ::
        (p.readings.map encode_reading).flatten).getD 0 0 =
        p.readings.length := rfl
    rw [hget0]
    have hlenflat : ((p.readings.map encode_reading).flatten).length =
        p.readings.length * 5 := encoded_readings_length p.readings
    have hplen : (p.readings.length ::
        (p.readings.map encode_reading).flatten).length =
        1 + p.readings.length * READING_SIZE := by
      simp [hlenflat, READING_SIZE]
      ring
    rw [if_neg (by omega)]
    rw [if_neg (by rw [hplen]; omega)]
    rw [if_neg (by rw [hplen]; omega)]
    have hdrop1 : (p.readings.length ::
        (p.readings.map encode_reading).flatten).drop 1 =
        (p.readings.map encode_reading).flatten := rfl
    rw [decode_readings_ok p.readings hn3 _ 1 hdrop1]
    dsimp only
    rw [if_neg (not_not_intro hplen.symm)]
  · have hnd : ¬(p.msg_type = MSG_DATA) := by rw [hm]; decide
    rw [if_neg hnd, if_pos (Or.inr hm)]
    rw [if_neg (not_not_intro (by simp))]
    have hre : p.readings = [] := h10 (Or.inr hm)
    rw [← hre]

/-- C1: for every valid Frame (version 1, known kind, accepted device id,
in-range sequence, readings empty for INIT and HEARTBEAT and nonempty
with valid sensor kinds and finite 32-bit values for DATA),
decode_packet inverts encode_packet; and for a DATA frame with n
readings the encoded byte length equals 13 + 1 + 5n and is at most
200. -/
theorem claim_C1_codec_roundtrip (p : TelemetryPacket) (h : ValidFrame p) :
    ∃ bs : List Nat, encode_packet p = .ok bs ∧ decode_packet bs = .ok p ∧
      (p.msg_type = MSG_DATA →
        bs.length = 13 + 1 + 5 * p.readings.length ∧ bs.length ≤ 200) := by
  refine ⟨_, encode_packet_valid p h, decode_encode_valid p h, ?_⟩
  intro hm
  obtain ⟨hn1, hn2, _⟩ := h.2.2.2.2.2.2.2.2.2.2 hm
  rw [if_pos hm]
  have hlen : (headerList p ++
      (p.readings.length :: (p.readings.map encode_reading).flatten)).length =
      13 + 1 + 5 * p.readings.length := by
    rw [List.length_append, headerList_length, List.length_cons,
      encoded_readings_length]
    ring
  rw [hlen]
  exact ⟨rfl, by omega⟩

/-- Witness for C1 at a concrete DATA frame with three readings. -/
theorem claim_C1_codec_roundtrip_witness :
    ∃ bs : List Nat,
      encode_packet ⟨1, 1, 3001, 7, 100,
        [⟨1, 0x41C80000⟩, ⟨2, 0x42720000⟩, ⟨3, 0x40533333⟩], 0⟩ = .ok bs ∧
      decode_packet bs = .ok ⟨1, 1, 3001, 7, 100,
        [⟨1, 0x41C80000⟩, ⟨2, 0x42720000⟩, ⟨3, 0x40533333⟩], 0⟩ ∧
      ((1 : Int) = MSG_DATA →
        bs.length = 13 + 1 + 5 * 3 ∧ bs.length ≤ 200) :=
  claim_C1_codec_roundtrip
    ⟨1, 1, 3001, 7, 100,
      [⟨1, 0x41C80000⟩, ⟨2, 0x42720000⟩, ⟨3, 0x40533333⟩], 0⟩ (by decide)

set_option maxRecDepth 100000

/-- C2 counterexample: the claim asserts that decode_packet fails on a
well-formed 38-reading DATA datagram (total size 204, beyond the
200-byte limit), but decode_packet enforces no payload limit and
decodes it successfully, even though encode_packet rejects the same
frame. -/
theorem claim_C2_counterexample :
    decode_packet bytes38 = .ok pkt38 ∧ bytes38.length = 204 ∧
      isErr (encode_packet pkt38) = true :=
  ⟨by rfl, by decide, by decide⟩

/-- C2 amended: encode_packet fails on wrong version, unknown kind,
INIT or HEARTBEAT with readings, DATA with zero readings, 38-reading
DATA, unknown sensor kind, and NaN or infinite values; decode_packet
fails on the byte sequences corresponding to each of those cases except
the well-formed 38-reading DATA datagram, which it accepts because
decoding enforces no total-size limit; and decode_packet fails on a
DATA datagram with one extra trailing byte or with one byte
truncated. -/
theorem claim_C2_codec_rejection_amended :
    isErr (encode_packet ⟨2, 1, 3001, 7, 100, [rTemp], 0⟩) = true ∧
    isErr (encode_packet ⟨1, 5, 3001, 7, 100, [rTemp], 0⟩) = true ∧
    isErr (encode_packet ⟨1, 0, 3001, 7, 100, [rTemp], 0⟩) = true ∧
    isErr (encode_packet ⟨1, 2, 3001, 7, 100, [rTemp], 0⟩) = true ∧
    isErr (encode_packet ⟨1, 1, 3001, 7, 100, [], 0⟩) = true ∧
    isErr (encode_packet pkt38) = true ∧
    isErr (encode_packet ⟨1, 1, 3001, 7, 100, [⟨9, 0x41C80000⟩], 0⟩) = true ∧
    isErr (encode_packet ⟨1, 1, 3001, 7, 100, [⟨1, 0x7FC00000⟩], 0⟩) = true ∧
    isErr (encode_packet ⟨1, 1, 3001, 7, 100, [⟨1, 0x7F800000⟩], 0⟩) = true ∧
    isErr (encode_packet ⟨1, 1, 3001, 7, 100, [⟨1, 0xFF800000⟩], 0⟩) = true ∧
    isErr (decode_packet ([2, 1, 0, 11, 185] ++ be32enc 7 ++ be32enc 100 ++
      [1] ++ encode_reading rTemp)) = true ∧
    isErr (decode_packet ([1, 5, 0, 11, 185] ++ be32enc 7 ++ be32enc 100 ++
      [1] ++ encode_reading rTemp)) = true ∧
    isErr (decode_packet (hdrInit ++ [1] ++ encode_reading rTemp)) = true ∧
    isErr (decode_packet (hdrHB ++ [1] ++ encode_reading rTemp)) = true ∧
    isErr (decode_packet (hdrData ++ [0])) = true ∧
    isErr (decode_packet bytes38) = false ∧
    isErr (decode_packet (hdrData ++ [1] ++ [9] ++ be32enc 0x41C80000)) = true ∧
    isErr (decode_packet (hdrData ++ [1] ++ [1] ++ be32enc 0x7FC00000)) = true ∧
    isErr (decode_packet (hdrData ++ [1] ++ [1] ++ be32enc 0x7F800000)) = true ∧
    isErr (decode_packet (bytesOK ++ [0])) = true ∧
    isErr (decode_packet bytesOK.dropLast) = true :=
  by decide

/-! ### Lemmas about batch_packets -/

theorem pymaxI_cons (x y : Int) (ys : List Int) :
    pymaxI (x :: y :: ys) = pymaxI (max x y :: ys) := rfl

theorem pymaxI_spec (x : Int) (xs : List Int) :
    pymaxI (x :: xs) ∈ x :: xs ∧ ∀ y ∈ x :: xs, y ≤ pymaxI (x :: xs) := by
  induction xs generalizing x with
  | nil =>
    constructor
    · simp [pymaxI]
    · intro y hy
      simp at hy
      simp [pymaxI, hy]
  | cons y ys ih =>
    rw [pymaxI_cons]
    obtain ⟨ihmem, ihle⟩ := ih (max x y)
    constructor
    · rcases List.mem_cons.mp ihmem with h | h
      · rcases max_choice x y with hc | hc <;> rw [h, hc] <;> simp
      · exact List.mem_cons_of_mem _ (List.mem_cons_of_mem _ h)
    · intro z hz
      have hhead : max x y ≤ pymaxI (max x y :: ys) :=
        ihle _ (List.mem_cons_self _ _)
      rcases List.mem_cons.mp hz with h | h
      · rw [h]; exact le_trans (le_max_left x y) hhead
      · rcases List.mem_cons.mp h with h2 | h2
        · rw [h2]; exact le_trans (le_max_right x y) hhead
        · exact ihle z (List.mem_cons_of_mem _ h2)

theorem map_eq_replicate {α β : Type} (f : α → β) (d : β) :
    ∀ l : List α, (∀ x ∈ l, f x = d) → l.map f = List.replicate l.length d
  | [], _ => rfl
  | x :: xs, h => by
    simp only [List.map_cons, List.length_cons, List.replicate_succ]
    rw [h x (List.mem_cons_self x xs),
      map_eq_replicate f d xs (fun y hy => h y (List.mem_cons_of_mem x hy))]

theorem dedup_replicate_succ {α : Type} [DecidableEq α] (d : α) :
    ∀ n : Nat, (List.replicate (n + 1) d).dedup = [d]
  | 0 => by simp
  | n + 1 => by
    rw [List.replicate_succ, List.dedup_cons_of_mem (by simp),
      dedup_replicate_succ d n]

theorem dedup_length_one_of_all_eq (p0 : TelemetryPacket)
    (rest : List TelemetryPacket)
    (h : ∀ p ∈ p0 :: rest, p.device_id = p0.device_id) :
    (((p0 :: rest).map (fun p => p.device_id)).dedup).length = 1 := by
  rw [map_eq_replicate _ p0.device_id _ h, List.length_cons,
    dedup_replicate_succ]
  rfl

theorem all_eq_of_dedup_length_one {l : List Int}
    (h : l.dedup.length = 1) : ∀ x ∈ l, ∀ y ∈ l, x = y := by
  obtain ⟨a, ha⟩ := List.length_eq_one.mp h
  intro x hx y hy
  have hxa : x = a := by
    have := List.mem_dedup.mpr hx
    rw [ha] at this
    simpa using this
  have hya : y = a := by
    have := List.mem_dedup.mpr hy
    rw [ha] at this
    simpa using this
  rw [hxa, hya]

/-- C10: batch_packets on a nonempty list of DATA packets of a single
device returns one DATA packet whose readings are the concatenation of
the inputs readings in input order, whose seq_num and timestamp are the
maxima over the inputs, and whose flags equal FLAG_BATCHING; it fails on
an empty list, on any non-DATA input, on inputs spanning several device
ids, and when 13 + 1 + 5 times the total reading count exceeds 200. -/
theorem claim_C10_batching :
    (∀ (p0 : TelemetryPacket) (rest : List TelemetryPacket),
      (∀ p ∈ p0 :: rest, p.msg_type = MSG_DATA) →
      (∀ p ∈ p0 :: rest, p.device_id = p0.device_id) →
      HEADER_SIZE + 1 +
        (((p0 :: rest).map (fun p => p.readings)).flatten).length *
          READING_SIZE ≤ PAYLOAD_LIMIT →
      ∃ pkt, batch_packets (p0 :: rest) = .ok pkt ∧
        pkt.version = VERSION ∧ pkt.msg_type = MSG_DATA ∧
        pkt.device_id = p0.device_id ∧
        pkt.readings = ((p0 :: rest).map (fun p => p.readings)).flatten ∧
        pkt.flags = FLAG_BATCHING ∧
        pkt.seq_num ∈ (p0 :: rest).map (fun p => p.seq_num) ∧
        (∀ p ∈ p0 :: rest, p.seq_num ≤ pkt.seq_num) ∧
        pkt.timestamp ∈ (p0 :: rest).map (fun p => p.timestamp) ∧
        (∀ p ∈ p0 :: rest, p.timestamp ≤ pkt.timestamp)) ∧
    isErr (batch_packets []) = true ∧
    (∀ (ps : List TelemetryPacket) (p : TelemetryPacket), p ∈ ps →
      p.msg_type ≠ MSG_DATA → isErr (batch_packets ps) = true) ∧
    (∀ (ps : List TelemetryPacket) (p q : TelemetryPacket), p ∈ ps →
      q ∈ ps → p.device_id ≠ q.device_id →
      isErr (batch_packets ps) = true) ∧
    (∀ (p0 : TelemetryPacket) (rest : List TelemetryPacket),
      HEADER_SIZE + 1 +
        (((p0 :: rest).map (fun p => p.readings)).flatten).length *
          READING_SIZE > PAYLOAD_LIMIT →
      isErr (batch_packets (p0 :: rest)) = true) := by
  refine ⟨?_, by decide, ?_, ?_, ?_⟩
  · intro p0 rest hdata hdev hsz
    unfold batch_packets
    dsimp only
    rw [if_neg (by
      simp only [List.any_eq_true, not_exists, not_and, decide_eq_true_eq]
      push_neg
      intro p hp
      simpa using hdata p hp)]
    rw [if_neg (not_not_intro (dedup_length_one_of_all_eq p0 rest hdev))]
    rw [if_neg (not_lt.mpr hsz)]
    refine ⟨_, rfl, rfl, rfl, rfl, rfl, rfl, ?_, ?_, ?_, ?_⟩
    · exact (pymaxI_spec _ _).1
    · intro p hp
      exact (pymaxI_spec _ _).2 _ (List.mem_map_of_mem _ hp)
    · exact (pymaxI_spec _ _).1
    · intro p hp
      exact (pymaxI_spec _ _).2 _ (List.mem_map_of_mem _ hp)
  · intro ps p hp hnd
    match ps, hp with
    | p0 :: rest, hp =>
      unfold batch_packets
      dsimp only
      rw [if_pos (by
        simp only [List.any_eq_true, decide_eq_true_eq]
        exact ⟨p, hp, hnd⟩)]
      rfl
  · intro ps p q hp hq hne
    match ps, hp with
    | p0 :: rest, hp =>
      unfold batch_packets
      dsimp only
      by_cases hany :
          ((p0 :: rest).any fun x => decide (x.msg_type ≠ MSG_DATA)) = true
      · rw [if_pos hany]; rfl
      · rw [if_neg hany]
        rw [if_pos (by
          intro hlen
          exact hne (all_eq_of_dedup_length_one hlen _
            (List.mem_map_of_mem _ hp) _ (List.mem_map_of_mem _ hq)))]
        rfl
  · intro p0 rest hsz
    unfold batch_packets
    dsimp only
    by_cases hany :
        ((p0 :: rest).any fun x => decide (x.msg_type ≠ MSG_DATA)) = true
    · rw [if_pos hany]; rfl
    · rw [if_neg hany]
      by_cases hded : (((p0 :: rest).map (fun p => p.device_id)).dedup).length ≠ 1
      · rw [if_pos hded]; rfl
      · rw [if_neg hded, if_pos hsz]; rfl

/-- Witness for C10: batching two single-reading DATA packets of device
3001 succeeds with concatenated readings and maximal sequence number. -/
theorem claim_C10_batching_witness :
    ∃ pkt, batch_packets [⟨1, 1, 3001, 4, 50, [⟨1, 100⟩], 0⟩,
        ⟨1, 1, 3001, 9, 60, [⟨2, 200⟩], 0⟩] = .ok pkt ∧
      pkt.version = VERSION ∧ pkt.msg_type = MSG_DATA ∧
      pkt.device_id = 3001 ∧
      pkt.readings = [⟨1, 100⟩, ⟨2, 200⟩] ∧
      pkt.flags = FLAG_BATCHING ∧
      pkt.seq_num ∈ [(4 : Int), 9] ∧
      (∀ p ∈ [(⟨1, 1, 3001, 4, 50, [⟨1, 100⟩], 0⟩ : TelemetryPacket),
        ⟨1, 1, 3001, 9, 60, [⟨2, 200⟩], 0⟩], p.seq_num ≤ pkt.seq_num) ∧
      pkt.timestamp ∈ [(50 : Int), 60] ∧
      (∀ p ∈ [(⟨1, 1, 3001, 4, 50, [⟨1, 100⟩], 0⟩ : TelemetryPacket),
        ⟨1, 1, 3001, 9, 60, [⟨2, 200⟩], 0⟩], p.timestamp ≤ pkt.timestamp) :=
  claim_C10_batching.1 ⟨1, 1, 3001, 4, 50, [⟨1, 100⟩], 0⟩
    [⟨1, 1, 3001, 9, 60, [⟨2, 200⟩], 0⟩]
    (by decide) (by decide) (by decide)

/-! ### Basic facts about emitted rows -/

theorem log_data_row_is_dup (p : SPacket) (d g : Nat) :
    (log_data_row p d g).is_dup = d := by
  unfold log_data_row; split <;> rfl

theorem log_data_row_is_gap (p : SPacket) (d g : Nat) :
    (log_data_row p d g).is_gap = g := by
  unfold log_data_row; split <;> rfl

theorem log_data_row_seq (p : SPacket) (d g : Nat) :
    (log_data_row p d g).seq = p.seq_num := by
  unfold log_data_row; split <;> rfl

theorem log_data_row_kind (p : SPacket) (d g : Nat) :
    (log_data_row p d g).kind = .DATA := by
  unfold log_data_row; split <;> rfl

/-- The duplicate branch of _process_telemetry: a DATA packet whose
sequence does not exceed the last emitted one yields one
duplicate-flagged row and only bumps the counters. -/
theorem process_telemetry_dup (cfg : Config) (st : DState) (p : SPacket)
    (now : ℚ) (hd : p.msg_type = MSG_DATA) (hs : p.seq_num ≤ st.last_seq) :
    process_telemetry cfg st p now =
      ({ st with
        packets := st.packets + 1,
        is_batch_mode := decide (p.flags % 2 = 1),
        duplicates := st.duplicates + 1 }, [log_data_row p 1 0]) := by
  unfold process_telemetry
  rw [if_neg (not_not_intro hd), if_pos hs]

/-- C5: replaying DATA frames whose sequence numbers were already
emitted (each at most last_seq) yields, in order, one duplicate-flagged
row per frame and leaves last_seq, last_known_values, the reorder buffer
and the gap timer unchanged. -/
theorem claim_C5_duplicate_invariant (cfg : Config) (st : DState)
    (evs : List (SPacket × ℚ))
    (h : ∀ pe ∈ evs, pe.1.msg_type = MSG_DATA ∧ pe.1.seq_num ≤ st.last_seq) :
    (runEvents cfg st (evs.map (fun pe => .pkt pe.1 pe.2))).2 =
      evs.map (fun pe => log_data_row pe.1 1 0) ∧
    (∀ r ∈ (runEvents cfg st (evs.map (fun pe => .pkt pe.1 pe.2))).2,
      r.is_dup = 1) ∧
    (runEvents cfg st (evs.map (fun pe => .pkt pe.1 pe.2))).1.last_seq =
      st.last_seq ∧
    (runEvents cfg st (evs.map (fun pe => .pkt pe.1 pe.2))).1.last_values =
      st.last_values ∧
    (runEvents cfg st (evs.map (fun pe => .pkt pe.1 pe.2))).1.buffer =
      st.buffer ∧
    (runEvents cfg st (evs.map (fun pe => .pkt pe.1 pe.2))).1.gap_start_time =
      st.gap_start_time := by
  induction evs generalizing st with
  | nil => exact ⟨rfl, by simp [runEvents], rfl, rfl, rfl, rfl⟩
  | cons pe evs ih =>
    obtain ⟨hd, hs⟩ := h pe (List.mem_cons_self pe evs)
    have hstep := process_telemetry_dup cfg st pe.1 pe.2 hd hs
    have hrest := ih ({ st with
        packets := st.packets + 1,
        is_batch_mode := decide (pe.1.flags % 2 = 1),
        duplicates := st.duplicates + 1 })
      (fun q hq => ⟨(h q (List.mem_cons_of_mem pe hq)).1,
        (h q (List.mem_cons_of_mem pe hq)).2⟩)
    simp only [List.map_cons, runEvents, stepEvent, hstep]
    obtain ⟨hr1, hr2, hr3, hr4, hr5, hr6⟩ := hrest
    refine ⟨by rw [hr1]; rfl, ?_, hr3, hr4, hr5, hr6⟩
    intro r hr
    rcases List.mem_append.mp hr with hcase | hcase
    · have : r = log_data_row pe.1 1 0 := by simpa using hcase
      rw [this, log_data_row_is_dup]
    · exact hr2 r hcase

/-- Witness for C5: replaying a frame with sequence 3 against a state
whose last emitted sequence is 5 produces one duplicate row and keeps
the state components. -/
theorem claim_C5_duplicate_invariant_witness :
    (runEvents ⟨100, 5⟩ ⟨5, 3, 0, 0, [], some (some 20, none, none), none,
        false⟩
      ([(⟨1, 3001, 3, 0, [⟨1, 21⟩], 0⟩, 9)].map
        (fun pe => .pkt pe.1 pe.2))).2 =
      [(⟨1, 3001, 3, 0, [⟨1, 21⟩], 0⟩, (9 : ℚ))].map
        (fun pe => log_data_row pe.1 1 0) ∧
    (∀ r ∈ (runEvents ⟨100, 5⟩ ⟨5, 3, 0, 0, [],
        some (some 20, none, none), none, false⟩
      ([(⟨1, 3001, 3, 0, [⟨1, 21⟩], 0⟩, 9)].map
        (fun pe => .pkt pe.1 pe.2))).2, r.is_dup = 1) ∧
    (runEvents ⟨100, 5⟩ ⟨5, 3, 0, 0, [], some (some 20, none, none), none,
        false⟩
      ([(⟨1, 3001, 3, 0, [⟨1, 21⟩], 0⟩, 9)].map
        (fun pe => .pkt pe.1 pe.2))).1.last_seq = 5 ∧
    (runEvents ⟨100, 5⟩ ⟨5, 3, 0, 0, [], some (some 20, none, none), none,
        false⟩
      ([(⟨1, 3001, 3, 0, [⟨1, 21⟩], 0⟩, 9)].map
        (fun pe => .pkt pe.1 pe.2))).1.last_values =
      some (some 20, none, none) ∧
    (runEvents ⟨100, 5⟩ ⟨5, 3, 0, 0, [], some (some 20, none, none), none,
        false⟩
      ([(⟨1, 3001, 3, 0, [⟨1, 21⟩], 0⟩, 9)].map
        (fun pe => .pkt pe.1 pe.2))).1.buffer = [] ∧
    (runEvents ⟨100, 5⟩ ⟨5, 3, 0, 0, [], some (some 20, none, none), none,
        false⟩
      ([(⟨1, 3001, 3, 0, [⟨1, 21⟩], 0⟩, 9)].map
        (fun pe => .pkt pe.1 pe.2))).1.gap_start_time = none :=
  claim_C5_duplicate_invariant ⟨100, 5⟩
    ⟨5, 3, 0, 0, [], some (some 20, none, none), none, false⟩
    [(⟨1, 3001, 3, 0, [⟨1, 21⟩], 0⟩, 9)] (by decide)

/-! ### Buffer-size lemmas -/

theorem odInsert_length_le (l : List (Int × BufEntry)) (k : Int)
    (v : BufEntry) : (odInsert l k v).length ≤ l.length + 1 := by
  induction l with
  | nil => simp [odInsert]
  | cons kv rest ih =>
    unfold odInsert
    split_ifs <;> simp_all

theorem add_to_buffer_le (cfg : Config) (st : DState) (p : SPacket)
    (now : ℚ) (hB : 0 < cfg.max_buffer_size)
    (h : st.buffer.length ≤ cfg.max_buffer_size) :
    (add_to_buffer cfg st p now).buffer.length ≤ cfg.max_buffer_size := by
  unfold add_to_buffer
  dsimp only
  by_cases hc : st.buffer.length ≥ cfg.max_buffer_size
  · rw [if_pos hc]
    have h1 := odInsert_length_le st.buffer.tail p.seq_num ⟨p, now, false⟩
    have h2 : st.buffer.tail.length = st.buffer.length - 1 :=
      List.length_tail st.buffer
    omega
  · rw [if_neg hc]
    have h1 := odInsert_length_le st.buffer p.seq_num ⟨p, now, false⟩
    omega

theorem drainLoop_buffer_le (l : List (Int × BufEntry)) :
    ∀ last, ((drainLoop last l).2.1).length ≤ l.length := by
  induction l with
  | nil => intro last; simp [drainLoop]
  | cons kv rest ih =>
    intro last
    unfold drainLoop
    by_cases hc : kv.1 = last + 1
    · rw [if_pos hc]
      have := ih kv.1
      simpa using Nat.le_succ_of_le this
    · rw [if_neg hc]

theorem process_buffered_buffer_le (st : DState) :
    ((process_buffered st).1.buffer).length ≤ st.buffer.length := by
  unfold process_buffered
  dsimp only
  split <;> exact drainLoop_buffer_le st.buffer st.last_seq

theorem process_telemetry_buffer_le (cfg : Config) (st : DState)
    (p : SPacket) (now : ℚ) (hB : 0 < cfg.max_buffer_size)
    (h : st.buffer.length ≤ cfg.max_buffer_size) :
    ((process_telemetry cfg st p now).1.buffer).length ≤
      cfg.max_buffer_size := by
  unfold process_telemetry
  dsimp only
  split
  · split
    · exact le_trans (process_buffered_buffer_le _) h
    · split
      · split
        · dsimp only; exact h
        · dsimp only
          split <;> (dsimp only; exact h)
      · dsimp only; exact h
  · split
    · dsimp only; exact h
    · split
      · exact le_trans (process_buffered_buffer_le _) h
      · split
        · split
          · dsimp only
            split <;> split <;>
              first
              | (dsimp only; exact h)
              | (exact le_trans (process_buffered_buffer_le _) h)
              | (refine add_to_buffer_le _ _ _ _ hB ?_
                 first
                 | (dsimp only; exact h)
                 | (exact le_trans (process_buffered_buffer_le _) h))
          · refine add_to_buffer_le _ _ _ _ hB ?_
            dsimp only; exact h
        · refine add_to_buffer_le _ _ _ _ hB ?_
          dsimp only; exact h

theorem chain_lt_head (k0 : Int) (e0 : BufEntry) :
    ∀ l : List (Int × BufEntry),
      List.Chain' (fun a b => a.1 < b.1) ((k0, e0) :: l) →
      ∀ kv ∈ l, k0 < kv.1 := by
  intro l
  induction l generalizing k0 e0 with
  | nil => intro _ kv hkv; simp at hkv
  | cons kv1 rest ih =>
    intro hchain kv hkv
    have h01 : k0 < kv1.1 := (List.chain'_cons.mp hchain).1
    rcases List.mem_cons.mp hkv with hc | hc
    · rw [hc]; exact h01
    · exact lt_trans h01 (ih kv1.1 kv1.2 (List.chain'_cons.mp hchain).2 kv hc)

theorem cleanup_device_buffer_le (cfg : Config) (st : DState) (now : ℚ)
    (h : st.buffer.length ≤ cfg.max_buffer_size) :
    ((cleanup_device cfg st now).1.buffer).length ≤ cfg.max_buffer_size := by
  unfold cleanup_device
  split
  · exact h
  · split
    · exact le_trans (process_buffered_buffer_le _) h
    · exact h

theorem runEvents_buffer_le (cfg : Config) (hB : 0 < cfg.max_buffer_size)
    (events : List Event) :
    ∀ st : DState, st.buffer.length ≤ cfg.max_buffer_size →
    ((runEvents cfg st events).1.buffer).length ≤ cfg.max_buffer_size := by
  induction events with
  | nil => intro st h; exact h
  | cons e es ih =>
    intro st h
    unfold runEvents
    dsimp only
    refine ih _ ?_
    cases e with
    | pkt p now => exact process_telemetry_buffer_le cfg st p now hB h
    | sweep now => exact cleanup_device_buffer_le cfg st now h

/-- C7: starting from the initial device state, no sequence of packet
arrivals and maintenance sweeps ever leaves more than max_buffer_size
pending frames in the reorder buffer; and an insertion into a full
(sorted) buffer first evicts the entry with the lowest sequence
number. -/
theorem claim_C7_bounded_buffer :
    (∀ cfg : Config, 0 < cfg.max_buffer_size → ∀ events : List Event,
      ((runEvents cfg initDState events).1.buffer).length ≤
        cfg.max_buffer_size) ∧
    (∀ (cfg : Config) (st : DState) (p : SPacket) (now : ℚ),
      0 < cfg.max_buffer_size →
      st.buffer.length = cfg.max_buffer_size →
      List.Chain' (fun a b => a.1 < b.1) st.buffer →
      ∃ kmin e rest, st.buffer = (kmin, e) :: rest ∧
        (∀ kv ∈ st.buffer, kmin ≤ kv.1) ∧
        (add_to_buffer cfg st p now).buffer =
          odInsert rest p.seq_num ⟨p, now, false⟩) := by
  constructor
  · intro cfg hB events
    exact runEvents_buffer_le cfg hB events initDState (by simp [initDState])
  · intro cfg st p now hB hlen hchain
    match hbuf : st.buffer with
    | [] => rw [hbuf] at hlen; simp at hlen; omega
    | (kmin, e) :: rest =>
      refine ⟨kmin, e, rest, rfl, ?_, ?_⟩
      · intro kv hkv
        rw [hbuf] at hchain
        rcases List.mem_cons.mp hkv with hc | hc
        · rw [hc]
        · exact le_of_lt (chain_lt_head kmin e rest hchain kv hc)
      · unfold add_to_buffer
        dsimp only
        rw [hbuf] at hlen
        rw [if_pos (by rw [hbuf]; omega)]
        rw [hbuf]
        rfl

/-- Witness for C7 at a concrete trace (capacity 2, three future DATA
frames inserted, the lowest evicted) and a concrete full-buffer
insertion. -/
theorem claim_C7_bounded_buffer_witness :
    ((runEvents ⟨2, 5⟩ initDState
      [.pkt ⟨1, 3001, 4, 0, [⟨1, 20⟩], 0⟩ 0,
       .pkt ⟨1, 3001, 6, 0, [⟨1, 21⟩], 0⟩ 0,
       .pkt ⟨1, 3001, 8, 0, [⟨1, 22⟩], 0⟩ 0]).1.buffer).length ≤ 2 ∧
    (∃ kmin e rest,
      ([((4 : Int), (⟨⟨1, 3001, 4, 0, [⟨1, 20⟩], 0⟩, 0, false⟩ : BufEntry)),
        (6, ⟨⟨1, 3001, 6, 0, [⟨1, 21⟩], 0⟩, 0, false⟩)] :
          List (Int × BufEntry)) = (kmin, e) :: rest ∧
      (∀ kv ∈ ([(4, ⟨⟨1, 3001, 4, 0, [⟨1, 20⟩], 0⟩, 0, false⟩),
        (6, ⟨⟨1, 3001, 6, 0, [⟨1, 21⟩], 0⟩, 0, false⟩)] :
          List (Int × BufEntry)), kmin ≤ kv.1) ∧
      (add_to_buffer ⟨2, 5⟩ ⟨0, 2, 0, 0,
        [(4, ⟨⟨1, 3001, 4, 0, [⟨1, 20⟩], 0⟩, 0, false⟩),
         (6, ⟨⟨1, 3001, 6, 0, [⟨1, 21⟩], 0⟩, 0, false⟩)],
        none, some 0, false⟩ ⟨1, 3001, 8, 0, [⟨1, 22⟩], 0⟩ 1).buffer =
        odInsert rest 8 ⟨⟨1, 3001, 8, 0, [⟨1, 22⟩], 0⟩, 1, false⟩) :=
  ⟨claim_C7_bounded_buffer.1 ⟨2, 5⟩ (by decide)
    [.pkt ⟨1, 3001, 4, 0, [⟨1, 20⟩], 0⟩ 0,
     .pkt ⟨1, 3001, 6, 0, [⟨1, 21⟩], 0⟩ 0,
     .pkt ⟨1, 3001, 8, 0, [⟨1, 22⟩], 0⟩ 0],
   claim_C7_bounded_buffer.2 ⟨2, 5⟩ ⟨0, 2, 0, 0,
      [(4, ⟨⟨1, 3001, 4, 0, [⟨1, 20⟩], 0⟩, 0, false⟩),
       (6, ⟨⟨1, 3001, 6, 0, [⟨1, 21⟩], 0⟩, 0, false⟩)],
      none, some 0, false⟩ ⟨1, 3001, 8, 0, [⟨1, 22⟩], 0⟩ 1
    (by decide) (by decide)
    (List.chain'_cons.mpr ⟨by decide, List.chain'_singleton _⟩)⟩

/-! ### Duplicate insertion into the reorder buffer -/

/-- C9 counterexample: the claim asserts that inserting a frame whose
sequence is already buffered keeps the old entry and does not refresh
its arrival time; but the source assigns the OrderedDict slot
unconditionally, so re-inserting sequence 5 at time 2 over an entry
recorded at time 1 leaves the entry with arrival time 2, not 1. -/
theorem claim_C9_counterexample :
    ((add_to_buffer ⟨100, 5⟩
      (add_to_buffer ⟨100, 5⟩ ⟨0, 1, 0, 0, [], none, none, false⟩
        ⟨1, 3001, 5, 0, [⟨1, 20⟩], 0⟩ 1)
      ⟨1, 3001, 5, 0, [⟨1, 20⟩], 0⟩ 2).buffer.map
        (fun kv => (kv.1, kv.2.arrival_time))) = [(5, 2)] ∧
    ((2 : ℚ) = 1) = False := by
  constructor
  · rfl
  · simp

theorem odInsert_replace (k : Int) (v : BufEntry) :
    ∀ l : List (Int × BufEntry),
      List.Chain' (fun a b => a.1 < b.1) l → k ∈ l.map Prod.fst →
      odInsert l k v =
        l.map (fun kv => if kv.1 = k then (k, v) else kv) := by
  intro l
  induction l with
  | nil => intro _ hmem; simp at hmem
  | cons kv1 rest ih =>
    intro hchain hmem
    match kv1 with
    | (k1, v1) =>
      unfold odInsert
      by_cases heq : k = k1
      · rw [if_neg (by omega), if_pos heq]
        have hrest : rest.map (fun kv => if kv.1 = k then (k, v) else kv) =
            rest := by
          have hid : ∀ kv ∈ rest,
              (if kv.1 = k then (k, v) else kv) = kv := by
            intro kv hkv
            have := chain_lt_head k1 v1 rest hchain kv hkv
            rw [if_neg (by omega)]
          calc rest.map (fun kv => if kv.1 = k then (k, v) else kv)
              = rest.map id := List.map_congr_left hid
            _ = rest := List.map_id rest
        simp only [List.map_cons]
        rw [if_pos heq.symm, hrest]
      · have hk : k ∈ rest.map Prod.fst := by
          rcases List.mem_map.mp hmem with ⟨kv, hkv, hfst⟩
          rcases List.mem_cons.mp hkv with hc | hc
          · rw [hc] at hfst; exact absurd hfst.symm (by simpa using heq)
          · exact List.mem_map.mpr ⟨kv, hc, hfst⟩
        have hlt : k1 < k := by
          rcases List.mem_map.mp hk with ⟨kv, hkv, hfst⟩
          have := chain_lt_head k1 v1 rest hchain kv hkv
          omega
        rw [if_neg (by omega), if_neg heq]
        simp only [List.map_cons]
        rw [if_neg (by omega), ih (List.Chain'.tail hchain) hk]

/-- C9 amended: inserting a frame whose sequence number is already
present in the (sorted, below-capacity) reorder buffer REPLACES the
buffered entry with the new frame and refreshes its recorded arrival
time; the other entries and the buffer size are unchanged. -/
theorem claim_C9_amended (cfg : Config) (st : DState) (p : SPacket)
    (now : ℚ) (hlen : st.buffer.length < cfg.max_buffer_size)
    (hchain : List.Chain' (fun a b => a.1 < b.1) st.buffer)
    (hmem : p.seq_num ∈ st.buffer.map Prod.fst) :
    (add_to_buffer cfg st p now).buffer =
      st.buffer.map (fun kv =>
        if kv.1 = p.seq_num then (p.seq_num, ⟨p, now, false⟩) else kv) ∧
    ((add_to_buffer cfg st p now).buffer).length = st.buffer.length := by
  have hkey : (add_to_buffer cfg st p now).buffer =
      odInsert st.buffer p.seq_num ⟨p, now, false⟩ := by
    unfold add_to_buffer
    dsimp only
    rw [if_neg (by omega)]
  rw [hkey, odInsert_replace _ _ st.buffer hchain hmem]
  exact ⟨rfl, List.length_map _ _⟩

/-- Witness for amended C9: replacing the entry for sequence 5. -/
theorem claim_C9_amended_witness :
    (add_to_buffer ⟨100, 5⟩ ⟨0, 1, 0, 0,
      [(5, ⟨⟨1, 3001, 5, 0, [⟨1, 20⟩], 0⟩, 1, false⟩)], none, some 1,
      false⟩ ⟨1, 3001, 5, 0, [⟨1, 21⟩], 0⟩ 2).buffer =
      ([(5, ⟨⟨1, 3001, 5, 0, [⟨1, 20⟩], 0⟩, 1, false⟩)] :
        List (Int × BufEntry)).map (fun kv =>
          if kv.1 = 5 then (5, ⟨⟨1, 3001, 5, 0, [⟨1, 21⟩], 0⟩, 2, false⟩)
          else kv) ∧
    ((add_to_buffer ⟨100, 5⟩ ⟨0, 1, 0, 0,
      [(5, ⟨⟨1, 3001, 5, 0, [⟨1, 20⟩], 0⟩, 1, false⟩)], none, some 1,
      false⟩ ⟨1, 3001, 5, 0, [⟨1, 21⟩], 0⟩ 2).buffer).length =
      ([(5, ⟨⟨1, 3001, 5, 0, [⟨1, 20⟩], 0⟩, 1, false⟩)] :
        List (Int × BufEntry)).length :=
  claim_C9_amended ⟨100, 5⟩ ⟨0, 1, 0, 0,
      [(5, ⟨⟨1, 3001, 5, 0, [⟨1, 20⟩], 0⟩, 1, false⟩)], none, some 1,
      false⟩ ⟨1, 3001, 5, 0, [⟨1, 21⟩], 0⟩ 2
    (by decide) (List.chain'_singleton _) (by decide)

/-! ### Closed form of the normal-mode interpolation loop -/

theorem normalLoop_length (dev : Int) (steps : Vals) (d g : Nat) :
    ∀ (k : Nat) (s : Int) (cur : Vals),
      (normalLoop dev s steps cur d g k).length = k := by
  intro k
  induction k with
  | zero => intro s cur; rfl
  | succ k ih =>
    intro s cur
    unfold normalLoop
    simp [ih]

theorem fmtCell_advance (cur step : Option ℚ) :
    fmtCell (advance1 cur step) = cellN step cur 1 := by
  cases cur with
  | none => cases step <;> rfl
  | some c =>
    cases step with
    | none => rfl
    | some s =>
      unfold advance1 fmtCell cellN
      norm_num

theorem cellN_advance (cur step : Option ℚ) (j : Nat) :
    cellN step (advance1 cur step) (j + 1) = cellN step cur (j + 2) := by
  cases cur with
  | none => cases step <;> rfl
  | some c =>
    cases step with
    | none => rfl
    | some s =>
      unfold advance1 cellN
      push_cast
      ring_nf

theorem normalLoop_getD (dev : Int) (steps : Vals) (d g : Nat) :
    ∀ (k : Nat) (s : Int) (cur : Vals) (j : Nat), j < k →
      (normalLoop dev s steps cur d g k).getD j default =
        ⟨dev, s + j, .DATA, d, g,
          cellN steps.1 cur.1 (j + 1),
          cellN steps.2.1 cur.2.1 (j + 1),
          cellN steps.2.2 cur.2.2 (j + 1)⟩ := by
  intro k
  induction k with
  | zero => intro s cur j hj; omega
  | succ k ih =>
    intro s cur j hj
    unfold normalLoop
    dsimp only
    cases j with
    | zero =>
      simp only [List.getD_cons_zero]
      rw [show s + (0 : Nat) = s by omega]
      rw [← fmtCell_advance cur.1 steps.1, ← fmtCell_advance cur.2.1 steps.2.1,
        ← fmtCell_advance cur.2.2 steps.2.2]
      rfl
    | succ j =>
      simp only [List.getD_cons_succ]
      rw [ih (s + 1) (advanceVals cur steps) j (by omega)]
      have hseq : s + 1 + (j : Int) = s + ((j : Nat) + 1 : Nat) := by
        push_cast; ring
      rw [show ((advanceVals cur steps).1) = advance1 cur.1 steps.1 from rfl,
        show ((advanceVals cur steps).2.1) = advance1 cur.2.1 steps.2.1 from rfl,
        show ((advanceVals cur steps).2.2) = advance1 cur.2.2 steps.2.2 from rfl,
        cellN_advance, cellN_advance, cellN_advance, hseq]

theorem valsComp_temp (v : Vals) : valsComp SENSOR_TEMP v = v.1 := rfl

theorem valsComp_hum (v : Vals) : valsComp SENSOR_HUM v = v.2.1 := rfl

theorem valsComp_volt (v : Vals) : valsComp SENSOR_VOLT v = v.2.2 := rfl

theorem rowComp_temp (r : Row) : rowComp SENSOR_TEMP r = r.temp := rfl

theorem rowComp_hum (r : Row) : rowComp SENSOR_HUM r = r.humid := rfl

theorem rowComp_volt (r : Row) : rowComp SENSOR_VOLT r = r.volt := rfl

/-- C3: with last emitted sequence L carrying component value a, a
buffered single-reading right endpoint at sequence R = L + n + 1 with
value b for the same component, and no timely intervening frame (the
buffered entry has aged beyond the force-close threshold), closing the
gap emits exactly the synthesized rows for L+1 through R-1 carrying
a + (b-a)*i/(n+1) for i = 1..n with the gap flag set, followed by the
right-endpoint row (ending reconciliation at last sequence R-1 and
advancing to R as that row is emitted). -/
theorem claim_C3_gap_interpolation (cfg : Config) (st : DState)
    (now t0 : ℚ) (L R : Int) (n : Nat) (a b : ℚ) (stype : Int) (sv : Vals)
    (e : BufEntry)
    (hst : st.last_seq = L) (hlv : st.last_values = some sv)
    (hcomp : valsComp stype sv = some a)
    (hstype : stype = SENSOR_TEMP ∨ stype = SENSOR_HUM ∨ stype = SENSOR_VOLT)
    (hbuf : st.buffer = [(R, e)])
    (hpkt : e.packet.readings = [⟨stype, b⟩])
    (hseq : e.packet.seq_num = R)
    (hR : R = L + (n : Int) + 1) (hn : 1 ≤ n)
    (harr : e.arrival_time = t0)
    (hage : now - t0 > cfg.max_gap_wait_seconds * 2) :
    (cleanup_device cfg st now).2 =
      interpolate_rows e.packet.device_id L R (some sv)
        (get_first_packet_values e.packet) 0 1 1 ++
        [log_data_row e.packet 0 0] ∧
    ((cleanup_device cfg st now).2).length = n + 1 ∧
    (∀ j : Nat, j < n →
      ((cleanup_device cfg st now).2.getD j default).seq = L + 1 + j ∧
      ((cleanup_device cfg st now).2.getD j default).is_gap = 1 ∧
      ((cleanup_device cfg st now).2.getD j default).is_dup = 0 ∧
      rowComp stype ((cleanup_device cfg st now).2.getD j default) =
        .val (a + (b - a) * ((j : ℚ) + 1) / ((n : ℚ) + 1))) ∧
    ((cleanup_device cfg st now).2.getD n default).seq = R ∧
    ((cleanup_device cfg st now).2.getD n default).is_gap = 0 ∧
    ((cleanup_device cfg st now).2.getD n default).is_dup = 0 ∧
    (cleanup_device cfg st now).1.last_seq = R ∧
    (cleanup_device cfg st now).1.buffer = [] := by
  have hbsz : e.packet.readings.length = 1 := by rw [hpkt]; rfl
  have hcnat : (R - L - 1).toNat = n := by omega
  have hdrain : drainLoop (R - 1) [(R, e)] =
      (R, [], [log_data_row e.packet 0 0],
        some (get_packet_values e.packet)) := by
    unfold drainLoop
    rw [if_pos (by omega)]
    rfl
  have hkey : cleanup_device cfg st now =
      ((⟨R, st.packets, st.duplicates, st.gaps, [],
        some (get_packet_values e.packet), none, st.is_batch_mode⟩ : DState),
      interpolate_rows e.packet.device_id L R (some sv)
        (get_first_packet_values e.packet) 0 1 1 ++
        [log_data_row e.packet 0 0]) := by
    unfold cleanup_device
    rw [hbuf]
    dsimp only
    rw [if_pos (by rw [harr]; exact hage), hbsz, hst, hlv]
    unfold process_buffered
    dsimp only
    rw [hdrain]
    dsimp only
    rw [if_pos rfl]
  have hirows : interpolate_rows e.packet.device_id L R (some sv)
      (get_first_packet_values e.packet) 0 1 1 =
      normalLoop e.packet.device_id (L + 1)
        (mkSteps sv (get_first_packet_values e.packet) ((n : ℚ) + 1)) sv
        0 1 n := by
    unfold interpolate_rows
    rw [if_neg (by omega)]
    dsimp only
    rw [if_neg (by omega), hcnat]
    rfl
  have hilen : (interpolate_rows e.packet.device_id L R (some sv)
      (get_first_packet_values e.packet) 0 1 1).length = n := by
    rw [hirows, normalLoop_length]
  have hev : valsComp stype (get_first_packet_values e.packet) = some b := by
    unfold get_first_packet_values
    rw [hpkt]
    rcases hstype with h | h | h <;> rw [h] <;> rfl
  have hsteps : valsComp stype
      (mkSteps sv (get_first_packet_values e.packet) ((n : ℚ) + 1)) =
      some ((b - a) / ((n : ℚ) + 1)) := by
    rcases hstype with h | h | h
    · rw [h, valsComp_temp] at hcomp hev ⊢
      show mkStep sv.1 (get_first_packet_values e.packet).1 _ = _
      rw [hcomp, hev]
      rfl
    · rw [h, valsComp_hum] at hcomp hev ⊢
      show mkStep sv.2.1 (get_first_packet_values e.packet).2.1 _ = _
      rw [hcomp, hev]
      rfl
    · rw [h, valsComp_volt] at hcomp hev ⊢
      show mkStep sv.2.2 (get_first_packet_values e.packet).2.2 _ = _
      rw [hcomp, hev]
      rfl
  rw [hkey]
  dsimp only
  refine ⟨rfl, ?_, ?_, ?_, ?_, ?_, rfl, rfl⟩
  · rw [List.length_append, hilen]
    rfl
  · intro j hj
    rw [List.getD_append _ _ _ _ (by rw [hilen]; exact hj)]
    rw [hirows, normalLoop_getD _ _ _ _ _ _ _ _ (by omega : j < n)]
    refine ⟨by push_cast; ring, rfl, rfl, ?_⟩
    rcases hstype with h | h | h
    · rw [h, valsComp_temp] at hsteps hcomp
      rw [h, rowComp_temp]
      show cellN (mkSteps sv (get_first_packet_values e.packet)
        ((n : ℚ) + 1)).1 sv.1 (j + 1) = _
      rw [hsteps, hcomp]
      show Cell.val (a + ((j + 1 : Nat) : ℚ) * ((b - a) / ((n : ℚ) + 1))) = _
      congr 1
      push_cast
      ring
    · rw [h, valsComp_hum] at hsteps hcomp
      rw [h, rowComp_hum]
      show cellN (mkSteps sv (get_first_packet_values e.packet)
        ((n : ℚ) + 1)).2.1 sv.2.1 (j + 1) = _
      rw [hsteps, hcomp]
      show Cell.val (a + ((j + 1 : Nat) : ℚ) * ((b - a) / ((n : ℚ) + 1))) = _
      congr 1
      push_cast
      ring
    · rw [h, valsComp_volt] at hsteps hcomp
      rw [h, rowComp_volt]
      show cellN (mkSteps sv (get_first_packet_values e.packet)
        ((n : ℚ) + 1)).2.2 sv.2.2 (j + 1) = _
      rw [hsteps, hcomp]
      show Cell.val (a + ((j + 1 : Nat) : ℚ) * ((b - a) / ((n : ℚ) + 1))) = _
      congr 1
      push_cast
      ring
  · rw [List.getD_append_right _ _ _ _ (le_of_eq hilen),
      hilen, Nat.sub_self, List.getD_cons_zero, log_data_row_seq, hseq]
  · rw [List.getD_append_right _ _ _ _ (le_of_eq hilen),
      hilen, Nat.sub_self, List.getD_cons_zero, log_data_row_is_gap]
  · rw [List.getD_append_right _ _ _ _ (le_of_eq hilen),
      hilen, Nat.sub_self, List.getD_cons_zero, log_data_row_is_dup]

/-- Witness for C3: device state with last sequence 0 and temperature
20, buffered right endpoint at sequence 4 with temperature 30, sweep at
time 12; the first synthesized row is sequence 1 with temperature
20 + 10 * 1/4 and the final last sequence is 4. -/
theorem claim_C3_gap_interpolation_witness :
    (((cleanup_device cfgEx stEx 12).2.getD 0 default).seq =
        0 + 1 + ((0 : Nat) : Int) ∧
      ((cleanup_device cfgEx stEx 12).2.getD 0 default).is_gap = 1 ∧
      ((cleanup_device cfgEx stEx 12).2.getD 0 default).is_dup = 0 ∧
      rowComp 1 ((cleanup_device cfgEx stEx 12).2.getD 0 default) =
        .val (20 + (30 - 20) * (((0 : Nat) : ℚ) + 1) / (((3 : Nat) : ℚ) + 1))) ∧
    (cleanup_device cfgEx stEx 12).1.last_seq = 4 :=
  ⟨(claim_C3_gap_interpolation cfgEx stEx 12 1 0 4 3 20 30 1
      (some 20, none, none) entryEx4 rfl rfl rfl (Or.inl rfl) rfl rfl rfl
      (by norm_num) (by norm_num) rfl (by norm_num [cfgEx])).2.2.1 0 (by norm_num),
   (claim_C3_gap_interpolation cfgEx stEx 12 1 0 4 3 20 30 1
      (some 20, none, none) entryEx4 rfl rfl rfl (Or.inl rfl) rfl rfl rfl
      (by norm_num) (by norm_num) rfl (by norm_num [cfgEx])).2.2.2.2.2.2.1⟩

/-- Reducing interpolate_rows to the normal-mode loop for positive gap
width and batch size 1. -/
theorem interpolate_rows_normal (dev L R : Int) (sv0 ev : Vals)
    (d g : Nat) (h : 0 < R - L - 1) :
    interpolate_rows dev L R (some sv0) ev d g 1 =
      normalLoop dev (L + 1)
        (mkSteps sv0 ev (((R - L - 1).toNat : ℚ) + 1)) sv0 d g
        (R - L - 1).toNat := by
  unfold interpolate_rows
  rw [if_neg (by omega)]
  dsimp only
  rw [if_neg (by omega)]
  rfl

/-- C8 counterexample: with left endpoint temperature 10 and a
voltage-only right endpoint, the claim says every synthesized row lacks
the temperature (null); but the synthesized row carries temperature 10.
Additionally, the claim says a real 0.0 reading is written as 0.00 in
every emitted row, but the row formatting of src/server.py renders a 0.0
reading as the empty (null) marker. -/
theorem claim_C8_counterexample :
    get_first_packet_values pktExV = (none, none, some 5) ∧
    ((interpolate_rows 3001 0 2 (some (some 10, none, none))
      (get_first_packet_values pktExV) 0 1 1).getD 0 default).temp =
      Cell.val 10 ∧
    (Cell.val 10 = Cell.null) = False ∧
    (serverPy_row ⟨1, 3001, 1, 0, [⟨1, 0⟩], 0⟩).1 = Cell.null ∧
    (Cell.null = Cell.val 0) = False := by
  refine ⟨rfl, ?_, by simp, by rfl, by simp⟩
  rfl

/-- C8 amended: when the LEFT interpolation endpoint lacks a component,
every synthesized (non-batch) row lacks it, written as the explicit null
marker; when only the RIGHT endpoint lacks it, the synthesized rows
carry the left endpoint value unchanged instead of null.  In rows
emitted by server_besheer a missing component is the null marker and a
present component is written as its value, so a real 0.0 reading renders
as 0.00, distinct from null; in the legacy server.py a 0.0 reading
renders as the empty (null) marker. -/
theorem claim_C8_missing_components_amended :
    (∀ (dev L R : Int) (sv ev : Vals) (stype : Int),
      (stype = SENSOR_TEMP ∨ stype = SENSOR_HUM ∨ stype = SENSOR_VOLT) →
      valsComp stype sv = none →
      ∀ j : Nat, j < (R - L - 1).toNat →
      rowComp stype ((interpolate_rows dev L R (some sv) ev 0 1 1).getD j
        default) = Cell.null) ∧
    (∀ (dev L R : Int) (sv ev : Vals) (stype : Int) (a : ℚ),
      (stype = SENSOR_TEMP ∨ stype = SENSOR_HUM ∨ stype = SENSOR_VOLT) →
      valsComp stype sv = some a → valsComp stype ev = none →
      ∀ j : Nat, j < (R - L - 1).toNat →
      rowComp stype ((interpolate_rows dev L R (some sv) ev 0 1 1).getD j
        default) = Cell.val a) ∧
    (∀ (p : SPacket) (d g : Nat) (stype : Int),
      (stype = SENSOR_TEMP ∨ stype = SENSOR_HUM ∨ stype = SENSOR_VOLT) →
      ¬ (p.flags % 2 = 1) →
      rowComp stype (log_data_row p d g) =
        fmtCell (valsComp stype (get_packet_values p))) ∧
    (Cell.val 0 = Cell.null) = False ∧
    truthyCell (some 0) = Cell.null ∧
    (∀ q : ℚ, q ≠ 0 → truthyCell (some q) = Cell.val q) ∧
    (∀ p : SPacket, (serverPy_row p).1 =
      truthyCell (p.readings[0]?.map (fun r => r.value))) := by
  refine ⟨?_, ?_, ?_, by simp, by rfl, ?_, fun p => rfl⟩
  · intro dev L R sv ev stype hstype hnone j hj
    rw [interpolate_rows_normal dev L R sv ev 0 1 (by omega),
      normalLoop_getD _ _ _ _ _ _ _ _ hj]
    rcases hstype with h | h | h
    · rw [h, valsComp_temp] at hnone
      rw [h, rowComp_temp]
      show cellN _ sv.1 (j + 1) = _
      rw [hnone]
      rfl
    · rw [h, valsComp_hum] at hnone
      rw [h, rowComp_hum]
      show cellN _ sv.2.1 (j + 1) = _
      rw [hnone]
      rfl
    · rw [h, valsComp_volt] at hnone
      rw [h, rowComp_volt]
      show cellN _ sv.2.2 (j + 1) = _
      rw [hnone]
      rfl
  · intro dev L R sv ev stype a hstype hsome hnone j hj
    rw [interpolate_rows_normal dev L R sv ev 0 1 (by omega),
      normalLoop_getD _ _ _ _ _ _ _ _ hj]
    rcases hstype with h | h | h
    · rw [h, valsComp_temp] at hsome hnone
      rw [h, rowComp_temp]
      show cellN (mkSteps sv ev _).1 sv.1 (j + 1) = _
      have hstep : (mkSteps sv ev (((R - L - 1).toNat : ℚ) + 1)).1 = none := by
        show mkStep sv.1 ev.1 _ = none
        rw [hsome, hnone]
        rfl
      rw [hstep, hsome]
      rfl
    · rw [h, valsComp_hum] at hsome hnone
      rw [h, rowComp_hum]
      show cellN (mkSteps sv ev _).2.1 sv.2.1 (j + 1) = _
      have hstep : (mkSteps sv ev (((R - L - 1).toNat : ℚ) + 1)).2.1 = none := by
        show mkStep sv.2.1 ev.2.1 _ = none
        rw [hsome, hnone]
        rfl
      rw [hstep, hsome]
      rfl
    · rw [h, valsComp_volt] at hsome hnone
      rw [h, rowComp_volt]
      show cellN (mkSteps sv ev _).2.2 sv.2.2 (j + 1) = _
      have hstep : (mkSteps sv ev (((R - L - 1).toNat : ℚ) + 1)).2.2 = none := by
        show mkStep sv.2.2 ev.2.2 _ = none
        rw [hsome, hnone]
        rfl
      rw [hstep, hsome]
      rfl
  · intro p d g stype hstype hflags
    unfold log_data_row
    rw [if_neg hflags]
    rcases hstype with h | h | h
    · rw [h, rowComp_temp, valsComp_temp]
    · rw [h, rowComp_hum, valsComp_hum]
    · rw [h, rowComp_volt, valsComp_volt]
  · intro q hq
    show (if q = 0 then Cell.null else Cell.val q) = _
    rw [if_neg hq]

/-- Witness for amended C8: a synthesized row over a left endpoint that
lacks humidity carries the null humidity cell; an unbatched packet with
a 0.0 temperature reading is logged with the 0.00 cell. -/
theorem claim_C8_missing_components_amended_witness :
    rowComp 2 ((interpolate_rows 3001 0 2 (some (some 10, none, none))
      (none, none, some 5) 0 1 1).getD 0 default) = Cell.null ∧
    rowComp 1 (log_data_row ⟨1, 3001, 1, 0, [⟨1, 0⟩], 0⟩ 0 0) =
      fmtCell (valsComp 1 (get_packet_values ⟨1, 3001, 1, 0, [⟨1, 0⟩], 0⟩)) :=
  ⟨claim_C8_missing_components_amended.1 3001 0 2 (some 10, none, none)
      (none, none, some 5) 2 (Or.inr (Or.inl rfl)) rfl 0 (by norm_num),
   claim_C8_missing_components_amended.2.2.1 ⟨1, 3001, 1, 0, [⟨1, 0⟩], 0⟩
      0 0 1 (Or.inl rfl) (by norm_num)⟩

/-! ### Sequence structure of the interpolation loops -/

theorem normalLoop_is_dup (dev : Int) (steps : Vals) (d g : Nat) :
    ∀ (k : Nat) (s : Int) (cur : Vals),
      ∀ row ∈ normalLoop dev s steps cur d g k, row.is_dup = d := by
  intro k
  induction k with
  | zero => intro s cur row hrow; simp [normalLoop] at hrow
  | succ k ih =>
    intro s cur row hrow
    unfold normalLoop at hrow
    rcases List.mem_cons.mp hrow with h | h
    · rw [h]
    · exact ih (s + 1) _ row h

theorem normalLoop_getD_seq (dev : Int) (steps : Vals) (d g : Nat) :
    ∀ (k : Nat) (s : Int) (cur : Vals) (j : Nat), j < k →
      ((normalLoop dev s steps cur d g k).getD j default).seq =
        s + (j : Int) := by
  intro k
  induction k with
  | zero => intro s cur j hj; omega
  | succ k ih =>
    intro s cur j hj
    unfold normalLoop
    dsimp only
    cases j with
    | zero => simp
    | succ j =>
      simp only [List.getD_cons_succ]
      rw [ih (s + 1) _ j (by omega)]
      push_cast
      ring

theorem batchOuterLoop_is_dup (dev : Int) (steps : Vals) (d g : Nat)
    (bsz : Nat) :
    ∀ (k : Nat) (s : Int) (cur : Vals),
      ∀ row ∈ batchOuterLoop dev s steps cur d g bsz k, row.is_dup = d := by
  intro k
  induction k with
  | zero => intro s cur row hrow; simp [batchOuterLoop] at hrow
  | succ k ih =>
    intro s cur row hrow
    unfold batchOuterLoop at hrow
    rcases List.mem_cons.mp hrow with h | h
    · rw [h]
    · exact ih (s + 1) _ row h

theorem batchOuterLoop_length (dev : Int) (steps : Vals) (d g : Nat)
    (bsz : Nat) :
    ∀ (k : Nat) (s : Int) (cur : Vals),
      (batchOuterLoop dev s steps cur d g bsz k).length = k := by
  intro k
  induction k with
  | zero => intro s cur; rfl
  | succ k ih =>
    intro s cur
    unfold batchOuterLoop
    simp [ih]

theorem batchOuterLoop_getD_seq (dev : Int) (steps : Vals) (d g : Nat)
    (bsz : Nat) :
    ∀ (k : Nat) (s : Int) (cur : Vals) (j : Nat), j < k →
      ((batchOuterLoop dev s steps cur d g bsz k).getD j default).seq =
        s + (j : Int) := by
  intro k
  induction k with
  | zero => intro s cur j hj; omega
  | succ k ih =>
    intro s cur j hj
    unfold batchOuterLoop
    dsimp only
    cases j with
    | zero => simp
    | succ j =>
      simp only [List.getD_cons_succ]
      rw [ih (s + 1) _ j (by omega)]
      push_cast
      ring

theorem interpolate_rows_is_dup (dev a bnd : Int) (sv0 : Option Vals)
    (ev : Vals) (d g : Nat) (bsz : Nat) :
    ∀ row ∈ interpolate_rows dev a bnd sv0 ev d g bsz, row.is_dup = d := by
  intro row hrow
  unfold interpolate_rows at hrow
  by_cases hc : bnd - a - 1 ≤ 0
  · rw [if_pos hc] at hrow; simp at hrow
  · rw [if_neg hc] at hrow
    dsimp only at hrow
    by_cases hb : bsz > 1
    · rw [if_pos hb] at hrow
      exact batchOuterLoop_is_dup _ _ _ _ _ _ _ _ row hrow
    · rw [if_neg hb] at hrow
      exact normalLoop_is_dup _ _ _ _ _ _ _ row hrow

theorem interpolate_rows_length (dev a bnd : Int) (sv0 : Option Vals)
    (ev : Vals) (d g : Nat) (bsz : Nat) :
    (interpolate_rows dev a bnd sv0 ev d g bsz).length =
      (bnd - a - 1).toNat := by
  unfold interpolate_rows
  by_cases hc : bnd - a - 1 ≤ 0
  · rw [if_pos hc]
    simp only [List.length_nil]
    omega
  · rw [if_neg hc]
    dsimp only
    by_cases hb : bsz > 1
    · rw [if_pos hb, batchOuterLoop_length]
    · rw [if_neg hb, normalLoop_length]

theorem interpolate_rows_getD_seq (dev a bnd : Int) (sv0 : Option Vals)
    (ev : Vals) (d g : Nat) (bsz : Nat) :
    ∀ j : Nat, j < (bnd - a - 1).toNat →
      ((interpolate_rows dev a bnd sv0 ev d g bsz).getD j default).seq =
        a + 1 + (j : Int) := by
  intro j hj
  unfold interpolate_rows
  rw [if_neg (by omega)]
  dsimp only
  by_cases hb : bsz > 1
  · rw [if_pos hb, batchOuterLoop_getD_seq _ _ _ _ _ _ _ _ _ hj]
  · rw [if_neg hb, normalLoop_getD_seq _ _ _ _ _ _ _ _ hj]

/-- Index-to-member translation for row lists. -/
theorem mem_row_getD {l : List Row} {row : Row} (h : row ∈ l) :
    ∃ j, j < l.length ∧ l.getD j default = row := by
  rcases List.mem_iff_get.mp h with ⟨⟨j, hj⟩, hget⟩
  exact ⟨j, hj, by rw [List.getD_eq_getElem _ _ hj]; exact hget⟩

/-- Bounds of the synthesized sequence numbers. -/
theorem interpolate_rows_seq_bounds (dev a bnd : Int) (sv0 : Option Vals)
    (ev : Vals) (d g : Nat) (bsz : Nat) :
    ∀ row ∈ interpolate_rows dev a bnd sv0 ev d g bsz,
      a < row.seq ∧ row.seq < bnd := by
  intro row hrow
  rcases mem_row_getD hrow with ⟨j, hj, hget⟩
  rw [interpolate_rows_length] at hj
  have := interpolate_rows_getD_seq dev a bnd sv0 ev d g bsz j hj
  rw [hget] at this
  omega

/-- The synthesized sequence numbers are strictly increasing. -/
theorem interpolate_rows_seq_sorted (dev a bnd : Int) (sv0 : Option Vals)
    (ev : Vals) (d g : Nat) (bsz : Nat) :
    List.Pairwise (fun x y => x.seq < y.seq)
      (interpolate_rows dev a bnd sv0 ev d g bsz) := by
  rw [List.pairwise_iff_get]
  intro i j hij
  have hi : (i : Nat) < (interpolate_rows dev a bnd sv0 ev d g bsz).length :=
    i.isLt
  have hjl : (j : Nat) < (interpolate_rows dev a bnd sv0 ev d g bsz).length :=
    j.isLt
  have hgi := interpolate_rows_getD_seq dev a bnd sv0 ev d g bsz i
    (by rw [← interpolate_rows_length dev a bnd sv0 ev d g bsz]; exact hi)
  have hgj := interpolate_rows_getD_seq dev a bnd sv0 ev d g bsz j
    (by rw [← interpolate_rows_length dev a bnd sv0 ev d g bsz]; exact hjl)
  rw [List.getD_eq_getElem _ _ hi] at hgi
  rw [List.getD_eq_getElem _ _ hjl] at hgj
  have hij2 : ((i : Nat) : Int) < ((j : Nat) : Int) := by exact_mod_cast hij
  show ((interpolate_rows dev a bnd sv0 ev d g bsz).get i).seq <
    ((interpolate_rows dev a bnd sv0 ev d g bsz).get j).seq
  rw [List.get_eq_getElem, List.get_eq_getElem, hgi, hgj]
  omega

/-! ### Preservation lemmas for the sorted buffer -/

theorem odInsert_mem (k : Int) (v : BufEntry) :
    ∀ (l : List (Int × BufEntry)) (kv : Int × BufEntry),
      kv ∈ odInsert l k v → kv = (k, v) ∨ kv ∈ l := by
  intro l
  induction l with
  | nil => intro kv hkv; simp [odInsert] at hkv; exact Or.inl hkv
  | cons kv1 rest ih =>
    intro kv hkv
    match kv1 with
    | (k1, v1) =>
      unfold odInsert at hkv
      split_ifs at hkv with h1 h2
      · rcases List.mem_cons.mp hkv with h | h
        · exact Or.inl h
        · exact Or.inr h
      · rcases List.mem_cons.mp hkv with h | h
        · exact Or.inl h
        · exact Or.inr (List.mem_cons_of_mem _ h)
      · rcases List.mem_cons.mp hkv with h | h
        · exact Or.inr (by rw [h]; exact List.mem_cons_self _ _)
        · rcases ih kv h with h2 | h2
          · exact Or.inl h2
          · exact Or.inr (List.mem_cons_of_mem _ h2)

theorem odInsert_chain (k : Int) (v : BufEntry) :
    ∀ l : List (Int × BufEntry),
      List.Chain' (fun x y => x.1 < y.1) l →
      List.Chain' (fun x y => x.1 < y.1) (odInsert l k v) := by
  intro l
  induction l with
  | nil => intro _; simp [odInsert]
  | cons kv1 rest ih =>
    intro hchain
    match kv1 with
    | (k1, v1) =>
      unfold odInsert
      split_ifs with h1 h2
      · exact List.chain'_cons.mpr ⟨h1, hchain⟩
      · refine List.chain'_cons'.mpr ⟨?_, (List.chain'_cons'.mp hchain).2⟩
        intro y hy
        have := (List.chain'_cons'.mp hchain).1 y hy
        omega
      · refine List.chain'_cons'.mpr ⟨?_, ih (List.chain'_cons'.mp hchain).2⟩
        intro y hy
        have hymem : y ∈ odInsert rest k v := List.mem_of_mem_head? hy
        rcases odInsert_mem k v rest y hymem with h | h
        · rw [h]; dsimp only; omega
        · exact chain_lt_head k1 v1 rest hchain y h

/-- The goodBuf invariant survives _add_to_buffer for a packet beyond
the last emitted sequence, and every new buffer entry is an old one or
the inserted packet. -/
theorem add_to_buffer_good (cfg : Config) (st : DState) (p : SPacket)
    (now : ℚ) (hg : goodBuf st) (hgt : st.last_seq < p.seq_num) :
    goodBuf (add_to_buffer cfg st p now) ∧
    (add_to_buffer cfg st p now).last_seq = st.last_seq ∧
    (∀ kv ∈ (add_to_buffer cfg st p now).buffer,
      kv ∈ st.buffer ∨ kv.1 = p.seq_num) := by
  obtain ⟨hchain, hlt, hkey⟩ := hg
  have htail : ∀ kv ∈ (if st.buffer.length ≥ cfg.max_buffer_size then
      st.buffer.tail else st.buffer), kv ∈ st.buffer := by
    intro kv hkv
    split at hkv
    · exact List.mem_of_mem_tail hkv
    · exact hkv
  have htchain : List.Chain' (fun x y => x.1 < y.1)
      (if st.buffer.length ≥ cfg.max_buffer_size then st.buffer.tail
       else st.buffer) := by
    split
    · exact List.Chain'.tail hchain
    · exact hchain
  have hmem : ∀ kv ∈ (add_to_buffer cfg st p now).buffer,
      kv = (p.seq_num, (⟨p, now, false⟩ : BufEntry)) ∨ kv ∈ st.buffer := by
    intro kv hkv
    unfold add_to_buffer at hkv
    dsimp only at hkv
    rcases odInsert_mem _ _ _ kv hkv with h | h
    · exact Or.inl h
    · exact Or.inr (htail kv h)
  refine ⟨⟨?_, ?_, ?_⟩, rfl, ?_⟩
  · unfold add_to_buffer
    dsimp only
    exact odInsert_chain _ _ _ htchain
  · intro kv hkv
    rcases hmem kv hkv with h | h
    · rw [h]; exact hgt
    · exact hlt kv h
  · intro kv hkv
    rcases hmem kv hkv with h | h
    · rw [h]
    · exact hkey kv h
  · intro kv hkv
    rcases hmem kv hkv with h | h
    · exact Or.inr (by rw [h])
    · exact Or.inl h

/-- Behaviour of the drain loop on a sorted buffer of future packets
keyed by their sequence numbers. -/
theorem drainLoop_spec :
    ∀ (l : List (Int × BufEntry)) (last : Int),
      List.Chain' (fun x y => x.1 < y.1) l →
      (∀ kv ∈ l, last < kv.1) →
      (∀ kv ∈ l, kv.2.packet.seq_num = kv.1) →
      last ≤ (drainLoop last l).1 ∧
      List.Chain' (fun x y => x.1 < y.1) (drainLoop last l).2.1 ∧
      (∀ kv ∈ (drainLoop last l).2.1, (drainLoop last l).1 < kv.1) ∧
      (∀ kv ∈ (drainLoop last l).2.1, kv ∈ l) ∧
      (∀ row ∈ (drainLoop last l).2.2.1, row.is_dup = 0 ∧
        last < row.seq ∧ row.seq ≤ (drainLoop last l).1) ∧
      List.Pairwise (fun x y => x.seq < y.seq) (drainLoop last l).2.2.1 := by
  intro l
  induction l with
  | nil =>
    intro last _ _ _
    exact ⟨le_refl _, List.chain'_nil, by simp [drainLoop], by simp [drainLoop],
      by simp [drainLoop], by simp [drainLoop]⟩
  | cons kv rest ih =>
    intro last hchain hgt hkey
    match kv with
    | (k, e) =>
      by_cases hk : k = last + 1
      · have hrchain : List.Chain' (fun x y => x.1 < y.1) rest :=
          (List.chain'_cons'.mp hchain).2
        have hrgt : ∀ kv ∈ rest, k < kv.1 := chain_lt_head k e rest hchain
        have hrkey : ∀ kv ∈ rest, kv.2.packet.seq_num = kv.1 :=
          fun kv hkv => hkey kv (List.mem_cons_of_mem _ hkv)
        obtain ⟨ih1, ih2, ih3, ih4, ih5, ih6⟩ := ih k hrchain hrgt hrkey
        have hres : drainLoop last ((k, e) :: rest) =
            ((drainLoop k rest).1, (drainLoop k rest).2.1,
              log_data_row e.packet 0 0 :: (drainLoop k rest).2.2.1,
              match (drainLoop k rest).2.2.2 with
              | some v => some v
              | none => some (get_packet_values e.packet)) := by
          simp only [drainLoop]
          rw [if_pos hk]
        rw [hres]
        have hseqk : (log_data_row e.packet 0 0).seq = k := by
          rw [log_data_row_seq]
          exact hkey (k, e) (List.mem_cons_self _ _)
        refine ⟨by omega, ih2, ih3,
          fun kv hkv => List.mem_cons_of_mem _ (ih4 kv hkv), ?_, ?_⟩
        · intro row hrow
          rcases List.mem_cons.mp hrow with h | h
          · rw [h]
            exact ⟨log_data_row_is_dup _ _ _, by rw [hseqk]; omega,
              by rw [hseqk]; omega⟩
          · obtain ⟨hd, hlo, hhi⟩ := ih5 row h
            exact ⟨hd, by omega, hhi⟩
        · refine List.Pairwise.cons ?_ ih6
          intro row hrow
          rw [hseqk]
          exact (ih5 row hrow).2.1
      · have hres : drainLoop last ((k, e) :: rest) =
            (last, (k, e) :: rest, [], none) := by
          simp only [drainLoop]
          rw [if_neg hk]
        rw [hres]
        exact ⟨le_refl _, hchain, hgt, fun kv hkv => hkv, by simp, by simp⟩

/-- Behaviour of _process_buffered_packets on a well-formed state. -/
theorem process_buffered_spec (st : DState) (hg : goodBuf st) :
    goodBuf (process_buffered st).1 ∧
    st.last_seq ≤ (process_buffered st).1.last_seq ∧
    (∀ kv ∈ (process_buffered st).1.buffer, kv ∈ st.buffer) ∧
    (∀ row ∈ (process_buffered st).2, row.is_dup = 0 ∧
      st.last_seq < row.seq ∧
      row.seq ≤ (process_buffered st).1.last_seq) ∧
    List.Pairwise (fun x y => x.seq < y.seq) (process_buffered st).2 := by
  obtain ⟨hchain, hgt, hkey⟩ := hg
  obtain ⟨h1, h2, h3, h4, h5, h6⟩ :=
    drainLoop_spec st.buffer st.last_seq hchain hgt hkey
  have hst1 : (process_buffered st).1.last_seq =
      (drainLoop st.last_seq st.buffer).1 := by
    unfold process_buffered
    dsimp only
    split <;> rfl
  have hbuf1 : (process_buffered st).1.buffer =
      (drainLoop st.last_seq st.buffer).2.1 := by
    unfold process_buffered
    dsimp only
    split <;> rfl
  have hrows : (process_buffered st).2 =
      (drainLoop st.last_seq st.buffer).2.2.1 := rfl
  refine ⟨⟨by rw [hbuf1]; exact h2, ?_, ?_⟩, by rw [hst1]; exact h1,
    ?_, ?_, by rw [hrows]; exact h6⟩
  · intro kv hkv
    rw [hbuf1] at hkv
    rw [hst1]
    exact h3 kv hkv
  · intro kv hkv
    rw [hbuf1] at hkv
    exact hkey kv (h4 kv hkv)
  · intro kv hkv
    rw [hbuf1] at hkv
    exact h4 kv hkv
  · intro row hrow
    rw [hrows] at hrow
    rw [hst1]
    exact h5 row hrow

/-! ### Composition lemmas for emitted-row intervals -/

theorem filter_dup0_eq_self (rows : List Row)
    (h : ∀ row ∈ rows, row.is_dup = 0) :
    rows.filter (fun r => r.is_dup = 0) = rows := by
  refine List.filter_eq_self.mpr ?_
  intro r hr
  simp [h r hr]

theorem rowsOK_nil (lo hi : Int) : rowsOK lo hi [] :=
  ⟨by simp, by simp⟩

theorem rowsOK_of_all (lo hi : Int) (rows : List Row)
    (h : ∀ row ∈ rows, row.is_dup = 0 ∧ lo < row.seq ∧ row.seq ≤ hi)
    (hp : List.Pairwise (fun x y => x.seq < y.seq) rows) :
    rowsOK lo hi rows := by
  refine ⟨fun row hrow _ => (h row hrow).2, ?_⟩
  rw [filter_dup0_eq_self rows (fun row hrow => (h row hrow).1)]
  exact hp

theorem rowsOK_append (lo mid hi : Int) (r1 r2 : List Row)
    (h1 : rowsOK lo mid r1) (h2 : rowsOK mid hi r2) (hlm : lo ≤ mid)
    (hmh : mid ≤ hi) :
    rowsOK lo hi (r1 ++ r2) := by
  obtain ⟨hb1, hp1⟩ := h1
  obtain ⟨hb2, hp2⟩ := h2
  constructor
  · intro row hrow hdup
    rcases List.mem_append.mp hrow with h | h
    · obtain ⟨hl, hr⟩ := hb1 row h hdup
      exact ⟨hl, by omega⟩
    · obtain ⟨hl, hr⟩ := hb2 row h hdup
      exact ⟨by omega, hr⟩
  · rw [List.filter_append]
    rw [List.pairwise_append]
    refine ⟨hp1, hp2, ?_⟩
    intro x hx y hy
    have hxm := List.of_mem_filter hx
    have hym := List.of_mem_filter hy
    have hx0 : x.is_dup = 0 := by simpa using hxm
    have hy0 : y.is_dup = 0 := by simpa using hym
    have hxr := hb1 x (List.mem_of_mem_filter hx) hx0
    have hyr := hb2 y (List.mem_of_mem_filter hy) hy0
    omega

/-- One DATA arrival with a never-seen sequence number preserves buffer
well-formedness, never moves the last emitted sequence backward, emits
rows that respect the interval discipline, and only adds its own
sequence to the buffer. -/
theorem step_DATA_good (cfg : Config) (st : DState) (p : SPacket) (now : ℚ)
    (hg : goodBuf st) (hmsg : p.msg_type = MSG_DATA)
    (hfresh : ∀ kv ∈ st.buffer, kv.1 ≠ p.seq_num) :
    goodBuf (process_telemetry cfg st p now).1 ∧
    st.last_seq ≤ (process_telemetry cfg st p now).1.last_seq ∧
    rowsOK st.last_seq (process_telemetry cfg st p now).1.last_seq
      (process_telemetry cfg st p now).2 ∧
    (∀ kv ∈ (process_telemetry cfg st p now).1.buffer,
      kv ∈ st.buffer ∨ kv.1 = p.seq_num) := by
  obtain ⟨hchain, hgt, hkp⟩ := hg
  by_cases hdup : p.seq_num ≤ st.last_seq
  · rw [process_telemetry_dup cfg st p now hmsg hdup]
    refine ⟨⟨hchain, hgt, hkp⟩, le_refl _, ⟨?_, ?_⟩,
      fun kv hkv => Or.inl hkv⟩
    · intro row hrow hdup0
      have hr : row = log_data_row p 1 0 := by simpa using hrow
      rw [hr, log_data_row_is_dup] at hdup0
      exact absurd hdup0 one_ne_zero
    · have hf : (([log_data_row p 1 0]).filter (fun r => r.is_dup = 0)) =
          [] := by
        simp [log_data_row_is_dup]
      rw [hf]
      exact List.Pairwise.nil
  · by_cases hio : p.seq_num = st.last_seq + 1
    · have hkey : process_telemetry cfg st p now =
          ((process_buffered { st with
            packets := st.packets + 1,
            is_batch_mode := decide (p.flags % 2 = 1),
            last_values := some (get_packet_values p),
            last_seq := p.seq_num,
            gap_start_time := none }).1,
          log_data_row p 0 0 :: (process_buffered { st with
            packets := st.packets + 1,
            is_batch_mode := decide (p.flags % 2 = 1),
            last_values := some (get_packet_values p),
            last_seq := p.seq_num,
            gap_start_time := none }).2) := by
        unfold process_telemetry
        dsimp only
        rw [if_neg (not_not_intro hmsg), if_neg hdup, if_pos hio]
      rw [hkey]
      dsimp only
      have hg1 : goodBuf { st with
          packets := st.packets + 1,
          is_batch_mode := decide (p.flags % 2 = 1),
          last_values := some (get_packet_values p),
          last_seq := p.seq_num,
          gap_start_time := none } := by
        refine ⟨hchain, ?_, hkp⟩
        intro kv hkv
        have h1 := hgt kv hkv
        have h2 := hfresh kv hkv
        show p.seq_num < kv.1
        omega
      obtain ⟨hb1, hb2, hb3, hb4, hb5⟩ := process_buffered_spec _ hg1
      refine ⟨hb1, ?_, ⟨?_, ?_⟩, fun kv hkv => Or.inl (hb3 kv hkv)⟩
      · have := hb2
        dsimp only at this
        omega
      · intro row hrow _
        rcases List.mem_cons.mp hrow with h | h
        · rw [h, log_data_row_seq]
          constructor
          · omega
          · have := hb2
            dsimp only at this
            omega
        · obtain ⟨_, hlo, hhi⟩ := hb4 row h
          dsimp only at hlo
          exact ⟨by omega, hhi⟩
      · have hall : ∀ row ∈ log_data_row p 0 0 ::
            (process_buffered { st with
              packets := st.packets + 1,
              is_batch_mode := decide (p.flags % 2 = 1),
              last_values := some (get_packet_values p),
              last_seq := p.seq_num,
              gap_start_time := none }).2, row.is_dup = 0 := by
          intro row hrow
          rcases List.mem_cons.mp hrow with h | h
          · rw [h, log_data_row_is_dup]
          · exact (hb4 row h).1
        rw [filter_dup0_eq_self _ hall]
        refine List.Pairwise.cons ?_ hb5
        intro row hrow
        rw [log_data_row_seq]
        have := (hb4 row hrow).2.1
        dsimp only at this
        omega
    · -- future frame: buffer it, possibly force-closing a stalled gap
      cases hgst : st.gap_start_time with
      | none =>
        have hkey : process_telemetry cfg st p now =
            (add_to_buffer cfg ({ st with
              packets := st.packets + 1,
              is_batch_mode := decide (p.flags % 2 = 1) }) p now, []) := by
          unfold process_telemetry
          dsimp only
          rw [if_neg (not_not_intro hmsg), if_neg hdup, if_neg hio, hgst]
        rw [hkey]
        dsimp only
        obtain ⟨hadd1, hadd2, hadd3⟩ := add_to_buffer_good cfg
          ({ st with
            packets := st.packets + 1,
            is_batch_mode := decide (p.flags % 2 = 1) }) p now
          ⟨hchain, hgt, hkp⟩ (by show st.last_seq < p.seq_num; omega)
        refine ⟨hadd1, by rw [hadd2], ?_, hadd3⟩
        rw [hadd2]
        exact rowsOK_nil _ _
      | some t0 =>
        by_cases htime : now - t0 > cfg.max_gap_wait_seconds
        · cases hbufc : st.buffer with
          | nil =>
            have hkey : process_telemetry cfg st p now =
                ({ st with
                  packets := st.packets + 1,
                  is_batch_mode := decide (p.flags % 2 = 1),
                  gaps := st.gaps + (p.seq_num - st.last_seq - 1),
                  last_values := some (get_packet_values p),
                  last_seq := p.seq_num,
                  gap_start_time := none },
                interpolate_rows p.device_id st.last_seq p.seq_num
                  st.last_values (get_first_packet_values p) 0 1
                  p.readings.length ++ [log_data_row p 0 0]) := by
              unfold process_telemetry
              dsimp only
              rw [if_neg (not_not_intro hmsg), if_neg hdup, if_neg hio, hgst]
              dsimp only
              rw [if_pos htime, hbufc]
              dsimp only
              rw [if_pos (by omega : p.seq_num = p.seq_num - 1 + 1)]
              rw [if_neg (by omega : ¬ p.seq_num > p.seq_num + 1)]
            rw [hkey]
            dsimp only
            refine ⟨⟨?_, ?_, ?_⟩, by omega, ?_, ?_⟩
            · show List.Chain' _ st.buffer
              exact hchain
            · intro kv hkv
              rw [hbufc] at hkv
              simp at hkv
            · intro kv hkv
              exact hkp kv hkv
            · refine rowsOK_append _ (p.seq_num - 1) _ _ _ ?_ ?_ (by omega)
                (by omega)
              · refine rowsOK_of_all _ _ _ ?_
                  (interpolate_rows_seq_sorted _ _ _ _ _ _ _ _)
                intro row hrow
                obtain ⟨hlo, hhi⟩ :=
                  interpolate_rows_seq_bounds _ _ _ _ _ _ _ _ row hrow
                exact ⟨interpolate_rows_is_dup _ _ _ _ _ _ _ _ row hrow,
                  hlo, by omega⟩
              · refine rowsOK_of_all _ _ _ ?_ (List.pairwise_singleton _ _)
                intro row hrow
                have hr : row = log_data_row p 0 0 := by simpa using hrow
                rw [hr, log_data_row_is_dup, log_data_row_seq]
                exact ⟨rfl, by omega, by omega⟩
            · intro kv hkv
              rw [hbufc] at hkv
              simp at hkv
          | cons kv0 rest =>
            match kv0 with
            | (k0, e0) =>
              have hk0gt : st.last_seq < k0 := by
                have := hgt (k0, e0) (by rw [hbufc]; exact List.mem_cons_self _ _)
                exact this
              have hk0ne : k0 ≠ p.seq_num :=
                hfresh (k0, e0) (by rw [hbufc]; exact List.mem_cons_self _ _)
              have hg2 : goodBuf { st with
                  packets := st.packets + 1,
                  is_batch_mode := decide (p.flags % 2 = 1),
                  gaps := st.gaps + (k0 - st.last_seq - 1),
                  last_seq := k0 - 1,
                  gap_start_time := none } := by
                refine ⟨hchain, ?_, hkp⟩
                intro kv hkv
                show k0 - 1 < kv.1
                rw [hbufc] at hkv
                rcases List.mem_cons.mp hkv with h | h
                · rw [h]; omega
                · have := chain_lt_head k0 e0 rest
                    (by rw [hbufc] at hchain; exact hchain) kv h
                  omega
              obtain ⟨hb1, hb2, hb3, hb4, hb5⟩ := process_buffered_spec _ hg2
              have hkey : process_telemetry cfg st p now =
                  (if p.seq_num > (process_buffered { st with
                      packets := st.packets + 1,
                      is_batch_mode := decide (p.flags % 2 = 1),
                      gaps := st.gaps + (k0 - st.last_seq - 1),
                      last_seq := k0 - 1,
                      gap_start_time := none }).1.last_seq + 1 then
                    add_to_buffer cfg (process_buffered { st with
                      packets := st.packets + 1,
                      is_batch_mode := decide (p.flags % 2 = 1),
                      gaps := st.gaps + (k0 - st.last_seq - 1),
                      last_seq := k0 - 1,
                      gap_start_time := none }).1 p now
                  else (process_buffered { st with
                      packets := st.packets + 1,
                      is_batch_mode := decide (p.flags % 2 = 1),
                      gaps := st.gaps + (k0 - st.last_seq - 1),
                      last_seq := k0 - 1,
                      gap_start_time := none }).1,
                  interpolate_rows p.device_id st.last_seq k0
                    st.last_values (get_first_packet_values e0.packet) 0 1
                    e0.packet.readings.length ++
                    (process_buffered { st with
                      packets := st.packets + 1,
                      is_batch_mode := decide (p.flags % 2 = 1),
                      gaps := st.gaps + (k0 - st.last_seq - 1),
                      last_seq := k0 - 1,
                      gap_start_time := none }).2) := by
                unfold process_telemetry
                dsimp only
                rw [if_neg (not_not_intro hmsg), if_neg hdup, if_neg hio, hgst]
                dsimp only
                rw [if_pos htime, hbufc]
                dsimp only
                rw [if_neg (by omega : ¬ p.seq_num = k0 - 1 + 1)]
              rw [hkey]
              dsimp only
              have hlastm : k0 - 1 ≤ (process_buffered { st with
                  packets := st.packets + 1,
                  is_batch_mode := decide (p.flags % 2 = 1),
                  gaps := st.gaps + (k0 - st.last_seq - 1),
                  last_seq := k0 - 1,
                  gap_start_time := none }).1.last_seq := hb2
              have hrowsall : rowsOK st.last_seq
                  (process_buffered { st with
                    packets := st.packets + 1,
                    is_batch_mode := decide (p.flags % 2 = 1),
                    gaps := st.gaps + (k0 - st.last_seq - 1),
                    last_seq := k0 - 1,
                    gap_start_time := none }).1.last_seq
                  (interpolate_rows p.device_id st.last_seq k0
                    st.last_values (get_first_packet_values e0.packet) 0 1
                    e0.packet.readings.length ++
                    (process_buffered { st with
                      packets := st.packets + 1,
                      is_batch_mode := decide (p.flags % 2 = 1),
                      gaps := st.gaps + (k0 - st.last_seq - 1),
                      last_seq := k0 - 1,
                      gap_start_time := none }).2) := by
                refine rowsOK_append _ (k0 - 1) _ _ _ ?_ ?_ (by omega) hlastm
                · refine rowsOK_of_all _ _ _ ?_
                    (interpolate_rows_seq_sorted _ _ _ _ _ _ _ _)
                  intro row hrow
                  obtain ⟨hlo, hhi⟩ :=
                    interpolate_rows_seq_bounds _ _ _ _ _ _ _ _ row hrow
                  exact ⟨interpolate_rows_is_dup _ _ _ _ _ _ _ _ row hrow,
                    hlo, by omega⟩
                · refine rowsOK_of_all _ _ _ ?_ hb5
                  intro row hrow
                  obtain ⟨hd0, hlo, hhi⟩ := hb4 row hrow
                  exact ⟨hd0, hlo, hhi⟩
              have hbase : ∀ kv ∈ (process_buffered { st with
                  packets := st.packets + 1,
                  is_batch_mode := decide (p.flags % 2 = 1),
                  gaps := st.gaps + (k0 - st.last_seq - 1),
                  last_seq := k0 - 1,
                  gap_start_time := none }).1.buffer, kv ∈ st.buffer := by
                intro kv hkv
                exact hb3 kv hkv
              by_cases hb6 : p.seq_num > (process_buffered { st with
                  packets := st.packets + 1,
                  is_batch_mode := decide (p.flags % 2 = 1),
                  gaps := st.gaps + (k0 - st.last_seq - 1),
                  last_seq := k0 - 1,
                  gap_start_time := none }).1.last_seq + 1
              · rw [if_pos hb6]
                obtain ⟨hadd1, hadd2, hadd3⟩ := add_to_buffer_good cfg _ p now
                  hb1 (by omega)
                refine ⟨hadd1, by rw [hadd2]; omega, by rw [hadd2]; exact
                  hrowsall, ?_⟩
                intro kv hkv
                rcases hadd3 kv hkv with h | h
                · exact Or.inl (hbufc ▸ hbase kv h)
                · exact Or.inr h
              · rw [if_neg hb6]
                refine ⟨hb1, by omega, hrowsall, ?_⟩
                intro kv hkv
                exact Or.inl (hbufc ▸ hbase kv hkv)
        · have hkey : process_telemetry cfg st p now =
              (add_to_buffer cfg ({ st with
                packets := st.packets + 1,
                is_batch_mode := decide (p.flags % 2 = 1) }) p now, []) := by
            unfold process_telemetry
            dsimp only
            rw [if_neg (not_not_intro hmsg), if_neg hdup, if_neg hio, hgst]
            dsimp only
            rw [if_neg htime]
          rw [hkey]
          dsimp only
          obtain ⟨hadd1, hadd2, hadd3⟩ := add_to_buffer_good cfg
            ({ st with
              packets := st.packets + 1,
              is_batch_mode := decide (p.flags % 2 = 1) }) p now
            ⟨hchain, hgt, hkp⟩ (by show st.last_seq < p.seq_num; omega)
          refine ⟨hadd1, by rw [hadd2], ?_, hadd3⟩
          rw [hadd2]
          exact rowsOK_nil _ _

/-- One maintenance sweep preserves buffer well-formedness, never moves
the last emitted sequence backward, emits rows that respect the interval
discipline, and only removes buffered entries. -/
theorem step_sweep_good (cfg : Config) (st : DState) (now : ℚ)
    (hg : goodBuf st) :
    goodBuf (cleanup_device cfg st now).1 ∧
    st.last_seq ≤ (cleanup_device cfg st now).1.last_seq ∧
    rowsOK st.last_seq (cleanup_device cfg st now).1.last_seq
      (cleanup_device cfg st now).2 ∧
    (∀ kv ∈ (cleanup_device cfg st now).1.buffer, kv ∈ st.buffer) := by
  obtain ⟨hchain, hgt, hkp⟩ := hg
  cases hbufc : st.buffer with
  | nil =>
    have hkey : cleanup_device cfg st now = (st, []) := by
      unfold cleanup_device
      rw [hbufc]
    rw [hkey]
    exact ⟨⟨hchain, hgt, hkp⟩, le_refl _, rowsOK_nil _ _,
      fun kv hkv => hbufc ▸ hkv⟩
  | cons kv0 rest =>
    match kv0 with
    | (k0, e0) =>
      by_cases htime : now - e0.arrival_time > cfg.max_gap_wait_seconds * 2
      · have hk0gt : st.last_seq < k0 :=
          hgt (k0, e0) (by rw [hbufc]; exact List.mem_cons_self _ _)
        have hg2 : goodBuf ({ st with last_seq := k0 - 1 }) := by
          refine ⟨hchain, ?_, hkp⟩
          intro kv hkv
          show k0 - 1 < kv.1
          rw [hbufc] at hkv
          rcases List.mem_cons.mp hkv with h | h
          · rw [h]; omega
          · have := chain_lt_head k0 e0 rest
              (by rw [hbufc] at hchain; exact hchain) kv h
            omega
        obtain ⟨hb1, hb2, hb3, hb4, hb5⟩ := process_buffered_spec _ hg2
        have hb2' : k0 - 1 ≤
            (process_buffered ({ st with last_seq := k0 - 1 })).1.last_seq :=
          hb2
        have hkey : cleanup_device cfg st now =
            ((process_buffered ({ st with last_seq := k0 - 1 })).1,
              interpolate_rows e0.packet.device_id st.last_seq k0
                st.last_values (get_first_packet_values e0.packet) 0 1
                e0.packet.readings.length ++
                (process_buffered ({ st with last_seq := k0 - 1 })).2) := by
          unfold cleanup_device
          rw [hbufc]
          dsimp only
          rw [if_pos htime]
        rw [hkey]
        dsimp only
        refine ⟨hb1, by omega, ?_, ?_⟩
        · refine rowsOK_append _ (k0 - 1) _ _ _ ?_ ?_ (by omega) hb2'
          · refine rowsOK_of_all _ _ _ ?_
              (interpolate_rows_seq_sorted _ _ _ _ _ _ _ _)
            intro row hrow
            obtain ⟨hlo, hhi⟩ :=
              interpolate_rows_seq_bounds _ _ _ _ _ _ _ _ row hrow
            exact ⟨interpolate_rows_is_dup _ _ _ _ _ _ _ _ row hrow,
              hlo, by omega⟩
          · refine rowsOK_of_all _ _ _ ?_ hb5
            intro row hrow
            exact hb4 row hrow
        · intro kv hkv
          exact hbufc ▸ hb3 kv hkv
      · have hkey : cleanup_device cfg st now = (st, []) := by
          unfold cleanup_device
          rw [hbufc]
          dsimp only
          rw [if_neg htime]
        rw [hkey]
        exact ⟨⟨hchain, hgt, hkp⟩, le_refl _, rowsOK_nil _ _,
          fun kv hkv => hbufc ▸ hkv⟩

/-- Running DATA-only arrivals with pairwise-distinct sequence numbers,
interleaved with maintenance sweeps, from a well-formed state whose
buffered sequences never recur in the trace: the state stays
well-formed, the last emitted sequence never moves backward, the rows
respect the interval discipline, and the buffer holds only sequences it
started with or that arrived. -/
theorem runEvents_good (cfg : Config) :
    ∀ (evs : List Event) (st : DState), goodBuf st →
      (∀ p t, Event.pkt p t ∈ evs → p.msg_type = MSG_DATA) →
      (∀ kv ∈ st.buffer, ∀ p t, Event.pkt p t ∈ evs → kv.1 ≠ p.seq_num) →
      List.Pairwise (fun a b => a ≠ b) (evs.filterMap evSeq) →
      goodBuf (runEvents cfg st evs).1 ∧
      st.last_seq ≤ (runEvents cfg st evs).1.last_seq ∧
      rowsOK st.last_seq (runEvents cfg st evs).1.last_seq
        (runEvents cfg st evs).2 ∧
      (∀ kv ∈ (runEvents cfg st evs).1.buffer,
        kv ∈ st.buffer ∨ ∃ p t, Event.pkt p t ∈ evs ∧ kv.1 = p.seq_num) := by
  intro evs
  induction evs with
  | nil =>
    intro st hg _ _ _
    exact ⟨hg, le_refl _, rowsOK_nil _ _, fun kv hkv => Or.inl hkv⟩
  | cons e es ih =>
    intro st hg hdata hfresh hdist
    cases e with
    | pkt p t =>
      have hpD : p.msg_type = MSG_DATA :=
        hdata p t (List.mem_cons_self _ _)
      obtain ⟨hs1, hs2, hs3, hs4⟩ := step_DATA_good cfg st p t hg hpD
        (fun kv hkv => hfresh kv hkv p t (List.mem_cons_self _ _))
      have hfm : (Event.pkt p t :: es).filterMap evSeq =
          p.seq_num :: es.filterMap evSeq := by
        simp [List.filterMap_cons, evSeq]
      have hdists : List.Pairwise (fun a b => a ≠ b)
          (es.filterMap evSeq) := by
        rw [hfm] at hdist
        exact hdist.of_cons
      have hpdist : ∀ q s, Event.pkt q s ∈ es → p.seq_num ≠ q.seq_num := by
        intro q s hq
        have hmem : q.seq_num ∈ es.filterMap evSeq :=
          List.mem_filterMap.mpr ⟨Event.pkt q s, hq, rfl⟩
        rw [hfm] at hdist
        exact (List.pairwise_cons.mp hdist).1 _ hmem
      have hfresh' : ∀ kv ∈ (process_telemetry cfg st p t).1.buffer,
          ∀ q s, Event.pkt q s ∈ es → kv.1 ≠ q.seq_num := by
        intro kv hkv q s hq
        rcases hs4 kv hkv with h | h
        · exact hfresh kv h q s (List.mem_cons_of_mem _ hq)
        · rw [h]; exact hpdist q s hq
      obtain ⟨hi1, hi2, hi3, hi4⟩ :=
        ih (process_telemetry cfg st p t).1 hs1
          (fun q s hq => hdata q s (List.mem_cons_of_mem _ hq)) hfresh' hdists
      have hrun : runEvents cfg st (Event.pkt p t :: es) =
          ((runEvents cfg (process_telemetry cfg st p t).1 es).1,
            (process_telemetry cfg st p t).2 ++
              (runEvents cfg (process_telemetry cfg st p t).1 es).2) := rfl
      rw [hrun]
      refine ⟨hi1, by dsimp only; omega, ?_, ?_⟩
      · exact rowsOK_append _ (process_telemetry cfg st p t).1.last_seq _
          _ _ hs3 hi3 hs2 hi2
      · intro kv hkv
        rcases hi4 kv hkv with h | h
        · rcases hs4 kv h with h2 | h2
          · exact Or.inl h2
          · exact Or.inr ⟨p, t, List.mem_cons_self _ _, h2⟩
        · obtain ⟨q, s, hq, hkq⟩ := h
          exact Or.inr ⟨q, s, List.mem_cons_of_mem _ hq, hkq⟩
    | sweep t =>
      obtain ⟨hs1, hs2, hs3, hs4⟩ := step_sweep_good cfg st t hg
      have hdists : List.Pairwise (fun a b => a ≠ b)
          (es.filterMap evSeq) := by
        have hfm : (Event.sweep t :: es).filterMap evSeq =
            es.filterMap evSeq := by
          simp [List.filterMap_cons, evSeq]
        rw [hfm] at hdist
        exact hdist
      have hfresh' : ∀ kv ∈ (cleanup_device cfg st t).1.buffer,
          ∀ q s, Event.pkt q s ∈ es → kv.1 ≠ q.seq_num := by
        intro kv hkv q s hq
        exact hfresh kv (hs4 kv hkv) q s (List.mem_cons_of_mem _ hq)
      obtain ⟨hi1, hi2, hi3, hi4⟩ :=
        ih (cleanup_device cfg st t).1 hs1
          (fun q s hq => hdata q s (List.mem_cons_of_mem _ hq)) hfresh' hdists
      have hrun : runEvents cfg st (Event.sweep t :: es) =
          ((runEvents cfg (cleanup_device cfg st t).1 es).1,
            (cleanup_device cfg st t).2 ++
              (runEvents cfg (cleanup_device cfg st t).1 es).2) := rfl
      rw [hrun]
      refine ⟨hi1, by dsimp only; omega, ?_, ?_⟩
      · exact rowsOK_append _ (cleanup_device cfg st t).1.last_seq _
          _ _ hs3 hi3 hs2 hi2
      · intro kv hkv
        rcases hi4 kv hkv with h | h
        · exact Or.inl (hs4 kv h)
        · obtain ⟨q, s, hq, hkq⟩ := h
          exact Or.inr ⟨q, s, List.mem_cons_of_mem _ hq, hkq⟩

/-- C6 counterexample: emitted rows are not strictly increasing in
sequence number even granting the duplicate-flag exemption.  In trace
trC6a (DATA frames 0, 2, 2, 4, 4, the repeats arriving after the gap
wait) the timeout fill path moves the last emitted sequence backward and
the row for sequence 2 is written twice, neither copy duplicate-flagged.
In trace trC6b a HEARTBEAT after a gap writes its gap marker row and its
own row with the same sequence number, neither duplicate-flagged. -/
theorem claim_C6_counterexample :
    ((runEvents cfgEx initDState trC6a).2.map
        (fun r => (r.seq, r.is_dup)) = [(0, 0), (1, 0), (2, 0), (2, 0)] ∧
      ¬ List.Pairwise (fun x y => x.seq < y.seq)
        ((runEvents cfgEx initDState trC6a).2.filter
          (fun r => r.is_dup = 0))) ∧
    ((runEvents cfgEx initDState trC6b).2.map
        (fun r => (r.seq, r.is_dup)) = [(0, 0), (2, 0), (2, 0)] ∧
      ¬ List.Pairwise (fun x y => x.seq < y.seq)
        ((runEvents cfgEx initDState trC6b).2.filter
          (fun r => r.is_dup = 0))) := by
  refine ⟨⟨?_, ?_⟩, ?_, ?_⟩
  · norm_num [trC6a, mkD, cfgEx, initDState, runEvents, stepEvent,
      process_telemetry, process_buffered, drainLoop, add_to_buffer,
      odInsert, interpolate_rows, normalLoop, log_data_row,
      get_packet_values, get_first_packet_values, firstVals, mkSteps,
      mkStep, advanceVals, advance1, fmtCell, MSG_DATA, MSG_INIT,
      MSG_HEARTBEAT, SENSOR_TEMP, SENSOR_HUM, SENSOR_VOLT]
  · norm_num [trC6a, mkD, cfgEx, initDState, runEvents, stepEvent,
      process_telemetry, process_buffered, drainLoop, add_to_buffer,
      odInsert, interpolate_rows, normalLoop, log_data_row,
      get_packet_values, get_first_packet_values, firstVals, mkSteps,
      mkStep, advanceVals, advance1, fmtCell, MSG_DATA, MSG_INIT,
      MSG_HEARTBEAT, SENSOR_TEMP, SENSOR_HUM, SENSOR_VOLT,
      List.pairwise_cons]
  · decide
  · decide

/-- C6 (amended): for every configuration and every event trace of
DATA-frame arrivals with pairwise-distinct sequence numbers interleaved
with maintenance sweeps, the rows emitted for the device that do not
carry the duplicate flag are strictly increasing in sequence number;
the original claim over arbitrary traces fails when a sequence number
recurs or a HEARTBEAT follows a gap. -/
theorem claim_C6_emission_monotonicity_amended (cfg : Config)
    (evs : List Event)
    (hdata : ∀ p t, Event.pkt p t ∈ evs → p.msg_type = MSG_DATA)
    (hdist : List.Pairwise (fun a b => a ≠ b) (evs.filterMap evSeq)) :
    List.Pairwise (fun x y => x.seq < y.seq)
      ((runEvents cfg initDState evs).2.filter
        (fun r => r.is_dup = 0)) := by
  have hg : goodBuf initDState :=
    ⟨List.chain'_nil, by intro kv hkv; simp [initDState] at hkv,
      by intro kv hkv; simp [initDState] at hkv⟩
  obtain ⟨-, -, h3, -⟩ := runEvents_good cfg evs initDState hg hdata
    (by intro kv hkv; simp [initDState] at hkv) hdist
  exact h3.2

/-- Witness: the amended C6 on the concrete distinct-sequence trace
0, 2 followed by a late sweep. -/
theorem claim_C6_emission_monotonicity_amended_witness :
    List.Pairwise (fun x y => x.seq < y.seq)
      ((runEvents cfgEx initDState
          [Event.pkt (mkD 0) 0, Event.pkt (mkD 2) 0,
            Event.sweep 100]).2.filter
        (fun r => r.is_dup = 0)) :=
  claim_C6_emission_monotonicity_amended cfgEx
    [Event.pkt (mkD 0) 0, Event.pkt (mkD 2) 0, Event.sweep 100]
    (by
      intro p t h
      simp only [List.mem_cons, List.not_mem_nil, or_false,
        Event.pkt.injEq] at h
      rcases h with ⟨h1, -⟩ | ⟨h1, -⟩ | h
      · rw [h1]; rfl
      · rw [h1]; rfl
      · exact absurd h (by simp))
    (by decide)

/-! ### The reordering development: drain and insertion on sequence
numbers -/

theorem nat_chain_lt_head (k : ℕ) : ∀ rest : List ℕ,
    List.Chain' (fun a b => a < b) (k :: rest) → ∀ x ∈ rest, k < x := by
  intro rest
  induction rest generalizing k with
  | nil => intro _ x hx; simp at hx
  | cons b l ih =>
    intro hchain x hx
    have hkb : k < b := (List.chain'_cons.mp hchain).1
    have hbl : List.Chain' (fun a b => a < b) (b :: l) :=
      (List.chain'_cons.mp hchain).2
    rcases List.mem_cons.mp hx with h | h
    · rw [h]; exact hkb
    · exact lt_trans hkb (ih b hbl x h)

theorem natInsert_mem (s : ℕ) :
    ∀ (ks : List ℕ) (x : ℕ), x ∈ natInsert s ks ↔ x = s ∨ x ∈ ks := by
  intro ks
  induction ks with
  | nil => intro x; simp [natInsert]
  | cons k rest ih =>
    intro x
    by_cases h1 : s < k
    · simp only [natInsert, if_pos h1, List.mem_cons]
    · by_cases h2 : s = k
      · subst h2
        rw [show natInsert s (s :: rest) = s :: rest from by
          unfold natInsert; rw [if_neg h1, if_pos rfl]]
        simp only [List.mem_cons]
        tauto
      · simp only [natInsert, if_neg h1, if_neg h2, List.mem_cons, ih]
        tauto

theorem natInsert_chain (s : ℕ) :
    ∀ ks : List ℕ, List.Chain' (fun a b => a < b) ks →
      List.Chain' (fun a b => a < b) (natInsert s ks) := by
  intro ks
  induction ks with
  | nil => intro _; simp [natInsert]
  | cons k rest ih =>
    intro hchain
    have hrest : List.Chain' (fun a b => a < b) rest :=
      (List.chain'_cons'.mp hchain).2
    by_cases h1 : s < k
    · simp only [natInsert, if_pos h1]
      exact List.chain'_cons.mpr ⟨h1, hchain⟩
    · by_cases h2 : s = k
      · subst h2
        rw [show natInsert s (s :: rest) = s :: rest from by
          unfold natInsert; rw [if_neg h1, if_pos rfl]]
        exact hchain
      · simp only [natInsert, if_neg h1, if_neg h2]
        refine List.chain'_cons'.mpr ⟨?_, ih hrest⟩
        intro y hy
        have hymem : y ∈ natInsert s rest := List.mem_of_mem_head? hy
        rcases (natInsert_mem s rest y).mp hymem with h | h
        · omega
        · exact nat_chain_lt_head k rest hchain y h

theorem natInsert_perm (s : ℕ) :
    ∀ ks : List ℕ, s ∉ ks → (natInsert s ks).Perm (s :: ks) := by
  intro ks
  induction ks with
  | nil => intro _; simp [natInsert]
  | cons k rest ih =>
    intro hs
    have hsk : s ≠ k := fun h => hs (h ▸ List.mem_cons_self _ _)
    have hsr : s ∉ rest := fun h => hs (List.mem_cons_of_mem _ h)
    by_cases h1 : s < k
    · simp only [natInsert, if_pos h1]
      exact List.Perm.refl _
    · simp only [natInsert, if_neg h1, if_neg hsk]
      exact (List.Perm.cons k (ih hsr)).trans (List.Perm.swap s k rest)

theorem odInsert_bufOf (p : ℕ → SPacket) :
    ∀ (ks : List ℕ) (s : ℕ),
      odInsert (bufOf p ks) (s : ℤ) ⟨p s, 0, false⟩ =
        bufOf p (natInsert s ks) := by
  intro ks
  induction ks with
  | nil => intro s; rfl
  | cons k rest ih =>
    intro s
    show odInsert (((k : ℤ), (⟨p k, 0, false⟩ : BufEntry)) :: bufOf p rest)
        (s : ℤ) ⟨p s, 0, false⟩ = bufOf p (natInsert s (k :: rest))
    unfold odInsert
    by_cases h1 : s < k
    · rw [if_pos (by exact_mod_cast h1 : (s : ℤ) < (k : ℤ))]
      rw [show natInsert s (k :: rest) = s :: k :: rest from by
        unfold natInsert; rw [if_pos h1]]
      rfl
    · rw [if_neg (by exact_mod_cast h1 : ¬ (s : ℤ) < (k : ℤ))]
      by_cases h2 : s = k
      · rw [if_pos (by exact_mod_cast h2 : (s : ℤ) = (k : ℤ))]
        rw [show natInsert s (k :: rest) = s :: rest from by
          unfold natInsert; rw [if_neg h1, if_pos h2]]
        rfl
      · rw [if_neg (by exact_mod_cast h2 : ¬ (s : ℤ) = (k : ℤ))]
        rw [show natInsert s (k :: rest) = k :: natInsert s rest from by
          simp only [natInsert]; rw [if_neg h1, if_neg h2]]
        rw [show bufOf p (k :: natInsert s rest) =
            ((k : ℤ), (⟨p k, 0, false⟩ : BufEntry)) ::
              bufOf p (natInsert s rest) from rfl]
        rw [← ih s]

theorem range1_append (s m n : ℕ) :
    List.range' s m ++ List.range' (s + m) n = List.range' s (m + n) := by
  have h := List.range'_append s m n 1
  rw [one_mul, Nat.add_comm n m] at h
  exact h

theorem add_to_buffer_last (cfg : Config) (st : DState) (p : SPacket)
    (now : ℚ) : (add_to_buffer cfg st p now).last_seq = st.last_seq := rfl

theorem add_to_buffer_buf_nofull (cfg : Config) (st : DState) (p : SPacket)
    (now : ℚ) (h : ¬ st.buffer.length ≥ cfg.max_buffer_size) :
    (add_to_buffer cfg st p now).buffer =
      odInsert st.buffer p.seq_num ⟨p, now, false⟩ := by
  unfold add_to_buffer
  dsimp only
  rw [if_neg h]

theorem add_to_buffer_gap (cfg : Config) (st : DState) (p : SPacket)
    (now : ℚ) :
    (add_to_buffer cfg st p now).gap_start_time =
      (match st.gap_start_time with
        | none => some now
        | some t => some t) := rfl

theorem process_buffered_last (st : DState) :
    (process_buffered st).1.last_seq = (drainLoop st.last_seq st.buffer).1 := by
  unfold process_buffered
  dsimp only
  split <;> rfl

theorem process_buffered_buffer (st : DState) :
    (process_buffered st).1.buffer =
      (drainLoop st.last_seq st.buffer).2.1 := by
  unfold process_buffered
  dsimp only
  split <;> rfl

theorem process_buffered_rows (st : DState) :
    (process_buffered st).2 = (drainLoop st.last_seq st.buffer).2.2.1 := rfl

theorem process_buffered_gap_none (st : DState)
    (h : st.gap_start_time = none) :
    (process_buffered st).1.gap_start_time = none := by
  unfold process_buffered
  dsimp only
  split
  · rfl
  · exact h

/-- Draining a buffer that holds exactly the sorted sequence numbers ks,
all beyond the last emitted sequence m, releases the maximal consecutive
run m+1, m+2, … and leaves the rest. -/
theorem drainLoop_bufOf (p : ℕ → SPacket) :
    ∀ (ks : List ℕ) (m : ℕ), List.Chain' (fun a b => a < b) ks →
      (∀ k ∈ ks, m < k) →
      ∃ j : ℕ, ∃ ks' : List ℕ,
        ks = List.range' (m + 1) j ++ ks' ∧
        List.Chain' (fun a b => a < b) ks' ∧
        (∀ k ∈ ks', m + j < k ∧ k ≠ m + j + 1) ∧
        (drainLoop (m : ℤ) (bufOf p ks)).1 = ((m + j : ℕ) : ℤ) ∧
        (drainLoop (m : ℤ) (bufOf p ks)).2.1 = bufOf p ks' ∧
        (drainLoop (m : ℤ) (bufOf p ks)).2.2.1 =
          (List.range' (m + 1) j).map
            (fun k => log_data_row (p k) 0 0) := by
  intro ks
  induction ks with
  | nil =>
    intro m _ _
    refine ⟨0, [], rfl, List.chain'_nil, by simp, ?_, rfl, rfl⟩
    show (m : ℤ) = ((m + 0 : ℕ) : ℤ)
    push_cast
    ring
  | cons k rest ih =>
    intro m hchain hub
    have hrestchain : List.Chain' (fun a b => a < b) rest :=
      (List.chain'_cons'.mp hchain).2
    have hrest_gt : ∀ x ∈ rest, k < x := nat_chain_lt_head k rest hchain
    have hkm : m < k := hub k (List.mem_cons_self _ _)
    by_cases hk : k = m + 1
    · obtain ⟨j, ks', heq, hchain', hcond', hd1, hd2, hd3⟩ :=
        ih (m + 1) hrestchain (fun x hx => hk ▸ hrest_gt x hx)
      have hstep : drainLoop (m : ℤ) (bufOf p (k :: rest)) =
          ((drainLoop (k : ℤ) (bufOf p rest)).1,
            (drainLoop (k : ℤ) (bufOf p rest)).2.1,
            log_data_row (p k) 0 0 ::
              (drainLoop (k : ℤ) (bufOf p rest)).2.2.1,
            match (drainLoop (k : ℤ) (bufOf p rest)).2.2.2 with
            | some v => some v
            | none => some (get_packet_values (p k))) := by
        show drainLoop (m : ℤ)
            (((k : ℤ), (⟨p k, 0, false⟩ : BufEntry)) :: bufOf p rest) = _
        simp only [drainLoop]
        rw [if_pos (by omega : (k : ℤ) = (m : ℤ) + 1)]
      have hcast : (k : ℤ) = ((m + 1 : ℕ) : ℤ) := by omega
      refine ⟨j + 1, ks', ?_, hchain', ?_, ?_, ?_, ?_⟩
      · rw [List.range'_succ]
        rw [heq, hk]
        rfl
      · intro x hx
        have := hcond' x hx
        omega
      · rw [hstep]
        dsimp only
        rw [hcast, hd1]
        push_cast
        ring
      · rw [hstep]
        dsimp only
        rw [hcast, hd2]
      · rw [hstep]
        dsimp only
        rw [hcast, hd3, List.range'_succ, hk]
        rfl
    · refine ⟨0, k :: rest, rfl, hchain, ?_, ?_, ?_, ?_⟩
      · intro x hx
        rcases List.mem_cons.mp hx with h | h
        · omega
        · have := hrest_gt x h
          omega
      · show (drainLoop (m : ℤ)
            (((k : ℤ), (⟨p k, 0, false⟩ : BufEntry)) :: bufOf p rest)).1 = _
        simp only [drainLoop]
        rw [if_neg (by omega : ¬ (k : ℤ) = (m : ℤ) + 1)]
        show (m : ℤ) = ((m + 0 : ℕ) : ℤ)
        push_cast
        ring
      · show (drainLoop (m : ℤ)
            (((k : ℤ), (⟨p k, 0, false⟩ : BufEntry)) :: bufOf p rest)).2.1 = _
        simp only [drainLoop]
        rw [if_neg (by omega : ¬ (k : ℤ) = (m : ℤ) + 1)]
        rfl
      · show (drainLoop (m : ℤ)
            (((k : ℤ), (⟨p k, 0, false⟩ : BufEntry)) ::
              bufOf p rest)).2.2.1 = _
        simp only [drainLoop]
        rw [if_neg (by omega : ¬ (k : ℤ) = (m : ℤ) + 1)]
        rfl

/-- The in-order branch equation of _process_telemetry. -/
theorem process_telemetry_inorder (cfg : Config) (st : DState)
    (q : SPacket) (now : ℚ) (hmsg : q.msg_type = MSG_DATA)
    (hio : q.seq_num = st.last_seq + 1) :
    process_telemetry cfg st q now =
      ((process_buffered (inorderState st q)).1,
        log_data_row q 0 0 :: (process_buffered (inorderState st q)).2) := by
  unfold process_telemetry inorderState
  dsimp only
  rw [if_neg (not_not_intro hmsg), if_neg (by omega : ¬ q.seq_num ≤ st.last_seq),
    if_pos hio]

/-- The buffering branch equation of _process_telemetry: out-of-order
beyond the successor, and either no gap is open or the gap has not timed
out. -/
theorem process_telemetry_buffering (cfg : Config) (st : DState)
    (q : SPacket) (now : ℚ) (hmsg : q.msg_type = MSG_DATA)
    (hdup : ¬ q.seq_num ≤ st.last_seq)
    (hio : ¬ q.seq_num = st.last_seq + 1)
    (hng : st.gap_start_time = none ∨
      ∃ t0, st.gap_start_time = some t0 ∧
        ¬ now - t0 > cfg.max_gap_wait_seconds) :
    process_telemetry cfg st q now = (gapBufState cfg st q now, []) := by
  unfold process_telemetry gapBufState
  dsimp only
  rw [if_neg (not_not_intro hmsg), if_neg hdup, if_neg hio]
  rcases hng with h | ⟨t0, h, hnt⟩
  · rw [h]
  · rw [h]
    dsimp only
    rw [if_neg hnt]

/-- Delivering the missing permutation elements one per instant 0 event
fills the log: from a state that has emitted 0 … m-1 and buffers exactly
the sorted sequence set ks, a permuted remainder rem completing
0 … N-1 yields exactly the rows m … N-1 in order. -/
theorem runEvents_perm_fill (cfg : Config) (p : ℕ → SPacket) (N : ℕ)
    (hN : N ≤ cfg.max_buffer_size) (hT : 0 ≤ cfg.max_gap_wait_seconds)
    (hseq : ∀ k : ℕ, (p k).seq_num = (k : ℤ))
    (hmsg : ∀ k : ℕ, (p k).msg_type = MSG_DATA) :
    ∀ (rem : List ℕ) (m : ℕ) (ks : List ℕ) (st : DState),
      (List.range N).Perm (List.range m ++ ks ++ rem) →
      List.Chain' (fun a b => a < b) ks →
      (∀ k ∈ ks, m < k) →
      st.last_seq = (m : ℤ) - 1 →
      st.buffer = bufOf p ks →
      (st.gap_start_time = none ∨ st.gap_start_time = some 0) →
      (runEvents cfg st (rem.map (fun k => Event.pkt (p k) 0))).2 =
        (List.range' m (N - m)).map (fun k => log_data_row (p k) 0 0) := by
  intro rem
  induction rem with
  | nil =>
    intro m ks st hperm _ hub _ _ _
    have hmN : m ≤ N := by
      by_contra h
      have hNm : N ∈ List.range m := List.mem_range.mpr (by omega)
      have : N ∈ List.range N := hperm.mem_iff.mpr
        (by
          rw [List.append_nil]
          exact List.mem_append_left _ hNm)
      exact absurd (List.mem_range.mp this) (lt_irrefl N)
    have hmN2 : N ≤ m := by
      by_contra h
      have hmm : m ∈ List.range N := List.mem_range.mpr (by omega)
      have hmem : m ∈ List.range m ++ ks ++ [] := hperm.mem_iff.mp hmm
      rw [List.append_nil] at hmem
      rcases List.mem_append.mp hmem with h2 | h2
      · exact absurd (List.mem_range.mp h2) (lt_irrefl m)
      · exact absurd (hub m h2) (lt_irrefl m)
    have hlen := hperm.length_eq
    simp only [List.append_nil, List.length_append, List.length_range]
      at hlen
    have hks : ks = [] := List.eq_nil_of_length_eq_zero (by omega)
    have hNm : N - m = 0 := by omega
    rw [hNm]
    rfl
  | cons s rem2 ih =>
    intro m ks st hperm hchain hub hlast hbuf hgap
    have hnd : ((List.range m ++ ks) ++ s :: rem2).Nodup :=
      hperm.nodup_iff.mp (List.nodup_range N)
    obtain ⟨hnd1, hnd2, hdisj⟩ := List.nodup_append.mp hnd
    have hs_not : s ∉ List.range m ++ ks :=
      fun hmem => hdisj hmem (List.mem_cons_self _ _)
    have hms : m ≤ s := by
      by_contra h
      exact hs_not (List.mem_append_left _ (List.mem_range.mpr (by omega)))
    have hsks : s ∉ ks := fun h => hs_not (List.mem_append_right _ h)
    have hsN : s < N := by
      have : s ∈ List.range N := hperm.mem_iff.mpr
        (List.mem_append_right _ (List.mem_cons_self _ _))
      exact List.mem_range.mp this
    have hksN : ∀ x ∈ ks, x < N := by
      intro x hx
      have : x ∈ List.range N := hperm.mem_iff.mpr
        (List.mem_append_left _ (List.mem_append_right _ hx))
      exact List.mem_range.mp this
    have hrun : runEvents cfg st
        ((s :: rem2).map (fun k => Event.pkt (p k) 0)) =
        ((runEvents cfg (process_telemetry cfg st (p s) 0).1
            (rem2.map (fun k => Event.pkt (p k) 0))).1,
          (process_telemetry cfg st (p s) 0).2 ++
            (runEvents cfg (process_telemetry cfg st (p s) 0).1
              (rem2.map (fun k => Event.pkt (p k) 0))).2) := rfl
    by_cases hsm : s = m
    · subst hsm
      have hmN : s < N := hsN
      have hio : (p s).seq_num = st.last_seq + 1 := by
        rw [hseq s, hlast]
        omega
      have hkey := process_telemetry_inorder cfg st (p s) 0 (hmsg s) hio
      obtain ⟨j, ks2, heq, hchain2, hcond2, hd1, hd2, hd3⟩ :=
        drainLoop_bufOf p ks s hchain hub
      have hsl : (inorderState st (p s)).last_seq = (s : ℤ) := by
        show (p s).seq_num = (s : ℤ)
        exact hseq s
      have hsb : (inorderState st (p s)).buffer = bufOf p ks := hbuf
      have hpl := process_buffered_last (inorderState st (p s))
      rw [hsl, hsb, hd1] at hpl
      have hpb := process_buffered_buffer (inorderState st (p s))
      rw [hsl, hsb, hd2] at hpb
      have hpr := process_buffered_rows (inorderState st (p s))
      rw [hsl, hsb, hd3] at hpr
      have hpg := process_buffered_gap_none (inorderState st (p s)) rfl
      have hjN : s + j < N := by
        cases Nat.eq_zero_or_pos j with
        | inl hj0 => omega
        | inr hj1 =>
          have hmem : s + j ∈ List.range' (s + 1) j :=
            List.mem_range'_1.mpr ⟨by omega, by omega⟩
          have : s + j ∈ ks := by
            rw [heq]
            exact List.mem_append_left _ hmem
          exact hksN _ this
      have hr1 : List.range (s + j + 1) =
          List.range s ++ (s :: List.range' (s + 1) j) := by
        rw [List.range_eq_range' (s + j + 1), List.range_eq_range' s]
        rw [show s + j + 1 = s + (j + 1) from by omega]
        rw [← range1_append 0 s (j + 1)]
        rw [Nat.zero_add]
        rw [List.range'_succ]
      have hperm2 : (List.range N).Perm
          ((List.range (s + j + 1) ++ ks2) ++ rem2) := by
        rw [hr1]
        rw [heq] at hperm
        refine hperm.trans ?_
        refine List.perm_middle.trans ?_
        have e1 : ((List.range s ++ (s :: List.range' (s + 1) j)) ++ ks2)
            ++ rem2 =
            List.range s ++ s :: (List.range' (s + 1) j ++ (ks2 ++ rem2)) := by
          simp [List.append_assoc]
        rw [e1]
        have e2 : (List.range s ++ (List.range' (s + 1) j ++ ks2)) ++ rem2 =
            List.range s ++ (List.range' (s + 1) j ++ (ks2 ++ rem2)) := by
          simp [List.append_assoc]
        rw [e2]
        exact List.perm_middle.symm
      have hub2 : ∀ k ∈ ks2, s + j + 1 < k := by
        intro x hx
        have := hcond2 x hx
        omega
      have hlast2 : (process_buffered (inorderState st (p s))).1.last_seq =
          ((s + j + 1 : ℕ) : ℤ) - 1 := by
        rw [hpl]
        push_cast
        ring
      have hih := ih (s + j + 1) ks2
        (process_buffered (inorderState st (p s))).1 hperm2 hchain2 hub2
        hlast2 hpb (Or.inl hpg)
      rw [hrun]
      dsimp only
      rw [hkey]
      dsimp only
      rw [hpr, hih]
      have hfin : List.range' s (N - s) =
          s :: (List.range' (s + 1) j ++
            List.range' (s + 1 + j) (N - (s + j + 1))) := by
        rw [show N - s = (j + (N - (s + j + 1))) + 1 from by omega]
        rw [List.range'_succ]
        rw [← range1_append (s + 1) j (N - (s + j + 1))]
      rw [hfin]
      simp only [List.map_cons, List.map_append, List.cons_append]
      rw [show s + 1 + j = s + j + 1 from by omega]
    · have hdup : ¬ (p s).seq_num ≤ st.last_seq := by
        rw [hseq s, hlast]
        omega
      have hio : ¬ (p s).seq_num = st.last_seq + 1 := by
        rw [hseq s, hlast]
        omega
      have hng : st.gap_start_time = none ∨
          ∃ t0, st.gap_start_time = some t0 ∧
            ¬ (0 : ℚ) - t0 > cfg.max_gap_wait_seconds := by
        rcases hgap with h | h
        · exact Or.inl h
        · refine Or.inr ⟨0, h, ?_⟩
          rw [sub_self]
          exact not_lt.mpr hT
      have hkey := process_telemetry_buffering cfg st (p s) 0 (hmsg s)
        hdup hio hng
      have hlen : ks.length < N := by
        have hl := hperm.length_eq
        simp only [List.length_append, List.length_range,
          List.length_cons] at hl
        omega
      have hnofull : ¬ ({ st with
          packets := st.packets + 1,
          is_batch_mode := decide ((p s).flags % 2 = 1) } :
            DState).buffer.length ≥ cfg.max_buffer_size := by
        show ¬ st.buffer.length ≥ cfg.max_buffer_size
        rw [hbuf]
        simp only [bufOf, List.length_map]
        omega
      have hgb : (gapBufState cfg st (p s) 0).buffer =
          bufOf p (natInsert s ks) := by
        unfold gapBufState
        rw [add_to_buffer_buf_nofull _ _ _ _ hnofull]
        show odInsert st.buffer (p s).seq_num _ = _
        rw [hbuf, hseq s, odInsert_bufOf]
      have hgl : (gapBufState cfg st (p s) 0).last_seq = (m : ℤ) - 1 := by
        show st.last_seq = (m : ℤ) - 1
        exact hlast
      have hgg : (gapBufState cfg st (p s) 0).gap_start_time = some 0 := by
        unfold gapBufState
        rw [add_to_buffer_gap]
        show (match st.gap_start_time with
          | none => some (0 : ℚ)
          | some t => some t) = some 0
        rcases hgap with h | h <;> rw [h]
      have hperm2 : (List.range N).Perm
          ((List.range m ++ natInsert s ks) ++ rem2) := by
        refine hperm.trans ?_
        have w1 : ((List.range m ++ natInsert s ks) ++ rem2).Perm
            ((List.range m ++ (s :: ks)) ++ rem2) :=
          ((natInsert_perm s ks hsks).append_left _).append_right _
        refine List.Perm.trans ?_ w1.symm
        refine List.perm_middle.trans ?_
        have e1 : (List.range m ++ s :: ks) ++ rem2 =
            List.range m ++ s :: (ks ++ rem2) := by
          simp [List.append_assoc]
        rw [e1]
        have e2 : (List.range m ++ ks) ++ rem2 =
            List.range m ++ (ks ++ rem2) := by
          simp [List.append_assoc]
        rw [e2]
        exact List.perm_middle.symm
      have hub2 : ∀ k ∈ natInsert s ks, m < k := by
        intro x hx
        rcases (natInsert_mem s ks x).mp hx with h | h
        · omega
        · exact hub x h
      have hih := ih m (natInsert s ks) (gapBufState cfg st (p s) 0)
        hperm2 (natInsert_chain s ks hchain) hub2 hgl hgb (Or.inr hgg)
      rw [hrun]
      dsimp only
      rw [hkey]
      dsimp only
      rw [hih]
      rfl


/-- C4 counterexample: the reordering claim fails as stated.  A fresh
device sending the strictly monotonic single-frame sequence 1 produces
no rows at all (last_seq starts at -1, so frame 1 is buffered, never
emitted).  Renumbering from 0 is not enough either: for the permutation
0, 3, 2, 1 whose last two frames arrive after the gap wait, the timeout
fill path emits gap-flagged rows 1 and 2 and a duplicate-flagged row 1;
with a one-slot buffer the permutation 0, 2, 3, 1 delivered at one
instant loses frames 2 and 3 to eviction; and with a negative gap wait
the same permutation at one instant emits a gap-flagged row. -/
theorem claim_C4_counterexample :
    (runEvents cfgEx initDState [Event.pkt (mkD 1) 0]).2 = [] ∧
    ((runEvents cfgEx initDState trC4b).2.map
        (fun r => (r.seq, r.is_dup, r.is_gap)) =
      [(0, 0, 0), (1, 0, 1), (2, 0, 1), (3, 0, 0), (1, 1, 0)]) ∧
    ((runEvents cfgSmall initDState trC4c).2.map
        (fun r => (r.seq, r.is_dup, r.is_gap)) =
      [(0, 0, 0), (1, 0, 0)]) ∧
    ((runEvents cfgNeg initDState trC4c).2.map
        (fun r => (r.seq, r.is_dup, r.is_gap)) =
      [(0, 0, 0), (1, 0, 1), (2, 0, 0), (1, 1, 0)]) := by
  refine ⟨?_, ?_, ?_, ?_⟩
  · rfl
  · norm_num [trC4b, mkD, cfgEx, initDState, runEvents, stepEvent,
      process_telemetry, process_buffered, drainLoop, add_to_buffer,
      odInsert, interpolate_rows, normalLoop, log_data_row,
      get_packet_values, get_first_packet_values, firstVals, mkSteps,
      mkStep, advanceVals, advance1, fmtCell, MSG_DATA, MSG_INIT,
      MSG_HEARTBEAT, SENSOR_TEMP, SENSOR_HUM, SENSOR_VOLT]
  · norm_num [trC4c, mkD, cfgSmall, initDState, runEvents, stepEvent,
      process_telemetry, process_buffered, drainLoop, add_to_buffer,
      odInsert, interpolate_rows, normalLoop, log_data_row,
      get_packet_values, get_first_packet_values, firstVals, mkSteps,
      mkStep, advanceVals, advance1, fmtCell, MSG_DATA, MSG_INIT,
      MSG_HEARTBEAT, SENSOR_TEMP, SENSOR_HUM, SENSOR_VOLT]
  · norm_num [trC4c, mkD, cfgNeg, initDState, runEvents, stepEvent,
      process_telemetry, process_buffered, drainLoop, add_to_buffer,
      odInsert, interpolate_rows, normalLoop, log_data_row,
      get_packet_values, get_first_packet_values, firstVals, mkSteps,
      mkStep, advanceVals, advance1, fmtCell, MSG_DATA, MSG_INIT,
      MSG_HEARTBEAT, SENSOR_TEMP, SENSOR_HUM, SENSOR_VOLT]

/-- C4 (amended): for DATA frames carrying the sequence numbers
0 … N-1 (not 1 … N), delivered exactly once each in any arrival order
at a single instant, with N within the reorder-buffer capacity and a
non-negative gap wait, the rows emitted for the device are exactly the
data rows of sequences 0, 1, …, N-1 in that order, none
duplicate-flagged and none gap-flagged. -/
theorem claim_C4_reordering_amended (cfg : Config) (p : ℕ → SPacket)
    (N : ℕ) (l : List ℕ) (hperm : (List.range N).Perm l)
    (hN : N ≤ cfg.max_buffer_size) (hT : 0 ≤ cfg.max_gap_wait_seconds)
    (hseq : ∀ k : ℕ, (p k).seq_num = (k : ℤ))
    (hmsg : ∀ k : ℕ, (p k).msg_type = MSG_DATA) :
    (runEvents cfg initDState (l.map (fun k => Event.pkt (p k) 0))).2 =
      (List.range N).map (fun k => log_data_row (p k) 0 0) ∧
    (runEvents cfg initDState (l.map (fun k => Event.pkt (p k) 0))).2.map
        (fun r => r.seq) = (List.range N).map (fun (k : ℕ) => (k : ℤ)) ∧
    ∀ row ∈ (runEvents cfg initDState
        (l.map (fun k => Event.pkt (p k) 0))).2,
      row.is_dup = 0 ∧ row.is_gap = 0 := by
  have h := runEvents_perm_fill cfg p N hN hT hseq hmsg l 0 [] initDState
    (by simpa using hperm) List.chain'_nil (by simp)
    (by show (-1 : ℤ) = ((0 : ℕ) : ℤ) - 1; norm_num) rfl (Or.inl rfl)
  have hr : (runEvents cfg initDState
      (l.map (fun k => Event.pkt (p k) 0))).2 =
      (List.range N).map (fun k => log_data_row (p k) 0 0) := by
    rw [h, List.range_eq_range' N, Nat.sub_zero]
  refine ⟨hr, ?_, ?_⟩
  · rw [hr, List.map_map]
    refine List.map_congr_left ?_
    intro k _
    show (log_data_row (p k) 0 0).seq = (k : ℤ)
    rw [log_data_row_seq]
    exact hseq k
  · intro row hrow
    rw [hr] at hrow
    obtain ⟨k, -, hk⟩ := List.mem_map.mp hrow
    rw [← hk]
    exact ⟨log_data_row_is_dup _ _ _, log_data_row_is_gap _ _ _⟩

/-- Witness: the amended C4 on the concrete permutation 0, 2, 1 of
three frames. -/
theorem claim_C4_reordering_amended_witness :
    (runEvents cfgEx initDState
        ([0, 2, 1].map (fun k => Event.pkt (mkD k) 0))).2 =
      (List.range 3).map (fun k => log_data_row (mkD k) 0 0) ∧
    (runEvents cfgEx initDState
        ([0, 2, 1].map (fun k => Event.pkt (mkD k) 0))).2.map
        (fun r => r.seq) = (List.range 3).map (fun (k : ℕ) => (k : ℤ)) ∧
    ∀ row ∈ (runEvents cfgEx initDState
        ([0, 2, 1].map (fun k => Event.pkt (mkD k) 0))).2,
      row.is_dup = 0 ∧ row.is_gap = 0 :=
  claim_C4_reordering_amended cfgEx (fun k => mkD k) 3 [0, 2, 1]
    (by decide) (by norm_num [cfgEx]) (by norm_num [cfgEx])
    (fun k => rfl) (fun k => rfl)


end Telemetry
